import Mathlib

/-!
Verification of the tf-nav indexer and reference-extraction engine.

A shallow embedding of the core of the `tf-nav` repository (a Terraform
block indexer and dependency-graph extractor written in TypeScript), with
proofs about its data model and algorithms.

Embedded components and their sources:
* data model (`Address`, `Edge`, `ProjectIndex`)         — `src/types.ts`, `src/graph/refs.ts`
* `buildOrganizedMaps`                                   — `src/indexer/buildIndex.ts`
* `rebuildMaps`, `processDeletedFiles`,
  `processChangedFiles`, `processUpdates`                — `src/indexer/watch.ts`
* `createAddressString`, `findTargetAddress`,
  `extractVariableReferencesFromContent`,
  `extractResourceReferencesFromContent`,
  `extractBlockReferences`, `extractModuleContainmentEdges`,
  `extractModuleToModuleEdges`,
  `extractModuleReferencesFromContent`,
  `extractReferenceEdges`                                — `src/graph/refs.ts`
* `TerraformParseCache` (`get`/`set`/`keyToString`)      — `src/indexer/cache.ts`
* `deepCloneParseResult` aliasing model                  — `src/indexer/cache.ts`
* `resolveModuleSource`'s companion `findModuleFiles`    — `src/indexer/moduleResolver.ts`
* `extractProvider`                                      — `src/types.ts`
* `extractBlocksFromHCL`                                 — `src/indexer/parser.ts`

JavaScript-specific semantics (regex scanning with `lastIndex`, `Map`
insertion order, `String.prototype.substring` clamping, `Array.sort`
with a numeric comparator, `path.extname`) are modelled explicitly below,
next to the functions that use them.  `String.prototype.localeCompare` is
modelled as code-point lexicographic comparison (it is locale-collation at
run time; the code-point order is the deterministic, locale-independent
reading, and the one the repository's own tests exercise).
-/

namespace TfNav

/-- Block kinds, from `BlockType` in `src/types.ts`.  The TS literal
`'variable'` is a Lean keyword, hence the trailing prime. -/
inductive BlockType where
  | resource
  | data
  | module
  | variable'
  | output
  | locals
deriving DecidableEq, Repr

/-- The TS string stored as the `byType` map key for a block
(`block.blockType` is a string in TS). -/
def BlockType.key : BlockType → String
  | .resource => "resource"
  | .data => "data"
  | .module => "module"
  | .variable' => "variable"
  | .output => "output"
  | .locals => "locals"

/-- The source `range: {start, end}` from `Address` in `src/types.ts` (`end` is a Lean
keyword, renamed `stop`). -/
structure ByteRange where
  start : Nat
  stop : Nat
deriving DecidableEq, Repr

/-- The source `Address` from `src/types.ts`, one parsed Terraform block.  Optional TS
fields become `Option`; `source` (the module `source` attribute) is the
field added for module blocks and read by `src/graph/refs.ts`. -/
structure Address where
  blockType : BlockType
  provider : Option String := none
  kind : Option String := none
  name : Option String := none
  modulePath : List String
  source : Option String := none
  file : String
  range : ByteRange
deriving DecidableEq, Repr

/-- The source `type: 'reference' | 'contains'` on edges in `src/graph/refs.ts`. -/
inductive EdgeType where
  | reference
  | contains
deriving DecidableEq, Repr

/-- The `attributes` record placed on every edge by `src/graph/refs.ts`
(`referenceType`, optional `attribute`, optional `relationship`).  The TS
field `attribute` is a Lean keyword, renamed `attr`. -/
structure EdgeAttributes where
  referenceType : String
  attr : Option String := none
  relationship : Option String := none
deriving DecidableEq, Repr

/-- A dependency edge as built in `src/graph/refs.ts`: `from`/`to` hold the
`Address` records themselves (`from` is a Lean keyword, hence
`fromAddr`/`toAddr`). -/
structure Edge where
  fromAddr : Address
  toAddr : Address
  type : EdgeType
  attributes : EdgeAttributes
deriving DecidableEq, Repr

/-- The source `ProjectIndex` from `src/types.ts`.  The TS `Map`s are modelled as
association lists in `Map` insertion order; `refs?: Edge[]` is an
`Option`. -/
structure ProjectIndex where
  blocks : List Address
  byType : List (String × List Address)
  byFile : List (String × List Address)
  refs : Option (List Edge) := none
deriving DecidableEq, Repr

/-! ## Grouping and sorting (`buildOrganizedMaps` / `rebuildMaps`)

`buildOrganizedMaps` in `src/indexer/buildIndex.ts` (lines 199-260) and
`rebuildMaps` in `src/indexer/watch.ts` (lines 393-450) are line-for-line
the same algorithm: group `index.blocks` into a `Map` by a key, sort each
group with a comparator, and store the result.  The common body is
factored into `organizeByType` / `organizeByFile` below, and the two
source functions are two named wrappers over it. -/

/-- One `Map.get`/`push`/`Map.set` step of the JS grouping loop: appending
to the group of `k` if it exists (the key keeps its position in a JS
`Map`), otherwise appending a new singleton group at the end. -/
def insertGrouped (k : String) (b : Address) :
    List (String × List Address) → List (String × List Address)
  | [] => [(k, [b])]
  | (k', bs) :: rest =>
      if k' = k then (k', bs ++ [b]) :: rest
      else (k', bs) :: insertGrouped k b rest

/-- The JS grouping loop `for (const block of blocks) { ... map.set ... }`. -/
def groupByKey (f : Address → String) (blocks : List Address) :
    List (String × List Address) :=
  blocks.foldl (fun acc b => insertGrouped (f b) b acc) []

/-- Lexicographic "less than" on character lists (code-point order),
the order underlying the `localeCompare` model. -/
def charListLt : List Char → List Char → Bool
  | [], [] => false
  | [], _ :: _ => true
  | _ :: _, [] => false
  | a :: as, b :: bs => if a < b then true else if b < a then false else charListLt as bs

/-- Code-point lexicographic "less than" on strings. -/
def strLt (a b : String) : Bool := charListLt a.data b.data

/-- Model of `String.prototype.localeCompare` as code-point lexicographic
comparison returning `-1`, `1`, or `0` (see file header). -/
def localeCompare (a b : String) : Int :=
  if strLt a b then -1 else if strLt b a then 1 else 0

/-- The `byType` comparator from `buildOrganizedMaps`/`rebuildMaps`:
name, then kind, then file, each via `localeCompare`, with absent
name/kind defaulting to `''` (the source's `nameA`/`kindA` locals are
inlined). -/
def byTypeCompare (a b : Address) : Int :=
  if a.name.getD "" ≠ b.name.getD "" then
    localeCompare (a.name.getD "") (b.name.getD "")
  else if a.kind.getD "" ≠ b.kind.getD "" then
    localeCompare (a.kind.getD "") (b.kind.getD "")
  else localeCompare a.file b.file

/-- The `byFile` comparator from `buildOrganizedMaps`/`rebuildMaps`:
`range.start`, then `range.end`, by numeric difference. -/
def byFileCompare (a b : Address) : Int :=
  if a.range.start ≠ b.range.start
  then (a.range.start : Int) - (b.range.start : Int)
  else (a.range.stop : Int) - (b.range.stop : Int)

/-- The sort order induced by a JS numeric comparator: `a` may precede `b`
exactly when `cmp a b ≤ 0`. -/
def cmpLe (cmp : Address → Address → Int) (a b : Address) : Prop :=
  cmp a b ≤ 0

instance (cmp : Address → Address → Int) : DecidableRel (cmpLe cmp) :=
  fun a b => inferInstanceAs (Decidable (cmp a b ≤ 0))

/-- The source `Array.prototype.sort` with a consistent comparator, modelled as
insertion sort (a sorted permutation; ES2019 sorts are stable, as is
insertion sort). -/
def jsSort (cmp : Address → Address → Int) (l : List Address) : List Address :=
  List.insertionSort (cmpLe cmp) l

/-- The `byType` map construction shared by `buildOrganizedMaps`
(`src/indexer/buildIndex.ts` 204-236) and `rebuildMaps`
(`src/indexer/watch.ts` 401-429). -/
def organizeByType (blocks : List Address) : List (String × List Address) :=
  (groupByKey (fun b => b.blockType.key) blocks).map
    (fun p => (p.1, jsSort byTypeCompare p.2))

/-- The `byFile` map construction shared by `buildOrganizedMaps`
(`src/indexer/buildIndex.ts` 239-259) and `rebuildMaps`
(`src/indexer/watch.ts` 432-449). -/
def organizeByFile (blocks : List Address) : List (String × List Address) :=
  (groupByKey (fun b => b.file) blocks).map
    (fun p => (p.1, jsSort byFileCompare p.2))

/-- The source `buildOrganizedMaps` from `src/indexer/buildIndex.ts` (199-260):
clears and repopulates both maps from `index.blocks`. -/
def buildOrganizedMaps (idx : ProjectIndex) : ProjectIndex :=
  { idx with
    byType := organizeByType idx.blocks
    byFile := organizeByFile idx.blocks }

/-- The source `rebuildMaps` from `src/indexer/watch.ts` (393-450): identical to
`buildOrganizedMaps`, run after every incremental mutation of
`index.blocks`.  Note it does not touch `refs`. -/
def rebuildMaps (idx : ProjectIndex) : ProjectIndex :=
  { idx with
    byType := organizeByType idx.blocks
    byFile := organizeByFile idx.blocks }

/-! ## The incremental updater (`src/indexer/watch.ts`)

`processUpdates` (240-293) splits the debounced batch into
changed/created/deleted lists, removes blocks of deleted files
(`processDeletedFiles`, 298-315), reparses changed+created files and
splices the new blocks in (`processChangedFiles`, 320-388), and rebuilds
the two maps after each pass.  Reparsing goes through
`TerraformParserFactory.parseFile`; its per-file outcome is abstracted
as a function `parse : file path → parsed blocks`.  Event emission and
error collection have no effect on the resulting index and are not
modelled. -/

/-- The debounced batch delivered by the watcher, already categorized
(`processUpdates` lines 251-270). -/
structure UpdateBatch where
  changed : List String
  created : List String
  deleted : List String
deriving DecidableEq, Repr

/-- The source `processDeletedFiles` (`src/indexer/watch.ts` 298-315): drop every
block whose `file` is in `deletedFiles`, then `rebuildMaps`. -/
def processDeletedFiles (deletedFiles : List String) (idx : ProjectIndex) :
    ProjectIndex :=
  rebuildMaps
    { idx with blocks := idx.blocks.filter (fun b => ¬ deletedFiles.contains b.file) }

/-- The source `processChangedFiles` (`src/indexer/watch.ts` 320-388): collect the
freshly parsed blocks of every file in `filesToReparse`, drop all old
blocks of those files, append the new blocks, then `rebuildMaps`. -/
def processChangedFiles (filesToReparse : List String)
    (parse : String → List Address) (idx : ProjectIndex) : ProjectIndex :=
  let updatedBlocks := filesToReparse.flatMap parse
  rebuildMaps
    { idx with blocks :=
        idx.blocks.filter (fun b => ¬ filesToReparse.contains b.file) ++ updatedBlocks }

/-- The source `processUpdates` (`src/indexer/watch.ts` 240-293): deletions first,
then changes and additions (changed before created, as in
`[...changedFiles, ...createdFiles]`). -/
def processUpdates (batch : UpdateBatch) (parse : String → List Address)
    (idx : ProjectIndex) : ProjectIndex :=
  let idx1 := if batch.deleted ≠ [] then processDeletedFiles batch.deleted idx else idx
  let filesToReparse := batch.changed ++ batch.created
  if filesToReparse ≠ [] then processChangedFiles filesToReparse parse idx1 else idx1

/-! ## Completeness of the two maps (claim C1 infrastructure) -/

/-- Sum over all keys of the lengths of a map's value sequences. -/
def sumLens (m : List (String × List Address)) : Nat :=
  (m.map (fun p => p.2.length)).sum

/-- All blocks stored in a map, in key order. -/
def mapValues (m : List (String × List Address)) : List Address :=
  m.flatMap (fun p => p.2)

theorem mapValues_insertGrouped (k : String) (b : Address) :
    ∀ acc, List.Perm (mapValues (insertGrouped k b acc)) (b :: mapValues acc) := by
  intro acc
  induction acc with
  | nil => simp [insertGrouped, mapValues]
  | cons p rest ih =>
      obtain ⟨k', bs⟩ := p
      by_cases h : k' = k
      · simp only [insertGrouped, if_pos h, mapValues, List.flatMap_cons]
        exact (List.perm_append_comm.append_right _).trans
          (List.Perm.of_eq (List.cons_append b bs _))
      · simp only [insertGrouped, if_neg h, mapValues, List.flatMap_cons] at *
        exact (ih.append_left bs).trans List.perm_middle

theorem mapValues_groupByKey (f : Address → String) (blocks : List Address) :
    List.Perm (mapValues (groupByKey f blocks)) blocks := by
  suffices h : ∀ (l : List Address) (acc : List (String × List Address)),
      List.Perm
        (mapValues (l.foldl (fun acc b => insertGrouped (f b) b acc) acc))
        (mapValues acc ++ l) by
    simpa [groupByKey, mapValues] using h blocks []
  intro l
  induction l with
  | nil => intro acc; simp
  | cons x xs ih =>
      intro acc
      have h1 : List.Perm
          (mapValues ((x :: xs).foldl (fun acc b => insertGrouped (f b) b acc) acc))
          (mapValues (insertGrouped (f x) x acc) ++ xs) := ih _
      have h2 : List.Perm (mapValues (insertGrouped (f x) x acc) ++ xs)
          ((x :: mapValues acc) ++ xs) :=
        (mapValues_insertGrouped (f x) x acc).append_right xs
      have h3 : List.Perm ((x :: mapValues acc) ++ xs) (mapValues acc ++ (x :: xs)) := by
        simpa using
          (@List.perm_middle _ x (mapValues acc) xs).symm
      exact (h1.trans h2).trans h3

theorem mapValues_map_sort (cmp : Address → Address → Int)
    (m : List (String × List Address)) :
    List.Perm (mapValues (m.map (fun p => (p.1, jsSort cmp p.2)))) (mapValues m) := by
  induction m with
  | nil => exact List.Perm.refl _
  | cons p rest ih =>
      simp only [List.map_cons, mapValues, List.flatMap_cons]
      exact ((List.perm_insertionSort _ p.2).append ih)

theorem mapValues_organizeByType (blocks : List Address) :
    List.Perm (mapValues (organizeByType blocks)) blocks :=
  (mapValues_map_sort byTypeCompare _).trans (mapValues_groupByKey _ blocks)

theorem mapValues_organizeByFile (blocks : List Address) :
    List.Perm (mapValues (organizeByFile blocks)) blocks :=
  (mapValues_map_sort byFileCompare _).trans (mapValues_groupByKey _ blocks)

theorem sumLens_eq_length_mapValues (m : List (String × List Address)) :
    sumLens m = (mapValues m).length := by
  induction m with
  | nil => rfl
  | cons p rest ih => simp [sumLens, mapValues, List.flatMap_cons] at *; omega

theorem sumLens_organizeByType (blocks : List Address) :
    sumLens (organizeByType blocks) = blocks.length := by
  rw [sumLens_eq_length_mapValues]
  exact (mapValues_organizeByType blocks).length_eq

theorem sumLens_organizeByFile (blocks : List Address) :
    sumLens (organizeByFile blocks) = blocks.length := by
  rw [sumLens_eq_length_mapValues]
  exact (mapValues_organizeByFile blocks).length_eq

/-- The completeness package for an index whose maps were just rebuilt. -/
def mapsComplete (j : ProjectIndex) : Prop :=
  sumLens j.byType = j.blocks.length ∧
  sumLens j.byFile = j.blocks.length ∧
  List.Perm (mapValues j.byType) j.blocks ∧
  List.Perm (mapValues j.byFile) j.blocks

theorem rebuildMaps_mapsComplete (idx : ProjectIndex) :
    mapsComplete (rebuildMaps idx) :=
  ⟨sumLens_organizeByType idx.blocks, sumLens_organizeByFile idx.blocks,
   mapValues_organizeByType idx.blocks, mapValues_organizeByFile idx.blocks⟩

theorem buildOrganizedMaps_mapsComplete (idx : ProjectIndex) :
    mapsComplete (buildOrganizedMaps idx) :=
  ⟨sumLens_organizeByType idx.blocks, sumLens_organizeByFile idx.blocks,
   mapValues_organizeByType idx.blocks, mapValues_organizeByFile idx.blocks⟩

/-- Claim C1: For every index returned by a full build (`buildOrganizedMaps`
is what populates the maps of the built index, over its final block list)
and for every index after a non-empty incremental update batch completes
(`processUpdates`), the sum over all keys of the lengths of the `byType`
sequences equals the length of the `blocks` list and equals the sum over
all files of the lengths of the `byFile` sequences; moreover each map's
concatenated contents are a permutation of `blocks` (every block exactly
once, no filtered subset, no stale entries). -/
theorem tfnav_C1_map_completeness
    (idx : ProjectIndex) (batch : UpdateBatch) (parse : String → List Address) :
    mapsComplete (buildOrganizedMaps idx) ∧
      ((batch.deleted ≠ [] ∨ batch.changed ++ batch.created ≠ []) →
        mapsComplete (processUpdates batch parse idx)) := by
  refine ⟨buildOrganizedMaps_mapsComplete idx, fun hne => ?_⟩
  unfold processUpdates
  by_cases hfiles : batch.changed ++ batch.created ≠ []
  · simp only [if_pos hfiles]
    exact rebuildMaps_mapsComplete _
  · simp only [if_neg hfiles]
    have hdel : batch.deleted ≠ [] := by
      rcases hne with h | h
      · exact h
      · exact absurd h hfiles
    simp only [if_pos hdel]
    exact rebuildMaps_mapsComplete _

/-- Concrete inputs for the C1 witness. -/
def blkW : Address :=
  { blockType := .resource, kind := some "aws_vpc", name := some "main",
    modulePath := [], file := "main.tf", range := ⟨0, 10⟩ }

def idxW : ProjectIndex :=
  { blocks := [blkW], byType := [], byFile := [], refs := none }

def batchW : UpdateBatch := { changed := [], created := [], deleted := ["main.tf"] }

/-- Witness for C1: the hypotheses hold and the conclusion follows at a
concrete index and batch. -/
theorem tfnav_C1_map_completeness_witness :
    (batchW.deleted ≠ [] ∨ batchW.changed ++ batchW.created ≠ []) ∧
      mapsComplete (processUpdates batchW (fun _ => []) idxW) :=
  ⟨Or.inl (by decide),
   (tfnav_C1_map_completeness idxW batchW (fun _ => [])).2 (Or.inl (by decide))⟩

/-! ## Ordering of the `byType` groups (claim C6 infrastructure) -/

theorem charListLt_irrefl : ∀ l, charListLt l l = false := by
  intro l
  induction l with
  | nil => rfl
  | cons a as ih =>
      simp only [charListLt, lt_irrefl, if_false]
      exact ih

theorem charListLt_asymm :
    ∀ (a b : List Char), charListLt a b = true → charListLt b a = false := by
  intro a
  induction a with
  | nil =>
      intro b h
      cases b with
      | nil => simp [charListLt] at h
      | cons y ys => simp [charListLt]
  | cons x xs ih =>
      intro b h
      cases b with
      | nil => simp [charListLt] at h
      | cons y ys =>
          simp only [charListLt] at h ⊢
          rcases lt_trichotomy x y with h1 | rfl | h1
          · rw [if_neg (lt_asymm h1), if_pos h1]
          · rw [if_neg (lt_irrefl x), if_neg (lt_irrefl x)] at h ⊢
            exact ih ys h
          · rw [if_neg (lt_asymm h1), if_pos h1] at h
            exact absurd h (by simp)

theorem charListLt_trans :
    ∀ (a b c : List Char), charListLt a b = true → charListLt b c = true →
      charListLt a c = true := by
  intro a
  induction a with
  | nil =>
      intro b c hab hbc
      cases b with
      | nil => simp [charListLt] at hab
      | cons y ys =>
          cases c with
          | nil => simp [charListLt] at hbc
          | cons z zs => simp [charListLt]
  | cons x xs ih =>
      intro b c hab hbc
      cases b with
      | nil => simp [charListLt] at hab
      | cons y ys =>
          cases c with
          | nil => simp [charListLt] at hbc
          | cons z zs =>
              simp only [charListLt] at hab hbc ⊢
              rcases lt_trichotomy x y with h1 | rfl | h1
              · rcases lt_trichotomy y z with h2 | rfl | h2
                · rw [if_pos (lt_trans h1 h2)]
                · rw [if_pos h1]
                · rw [if_neg (lt_asymm h2), if_pos h2] at hbc
                  exact absurd hbc (by simp)
              · rw [if_neg (lt_irrefl x), if_neg (lt_irrefl x)] at hab
                rcases lt_trichotomy x z with h2 | rfl | h2
                · rw [if_pos h2]
                · rw [if_neg (lt_irrefl x), if_neg (lt_irrefl x)] at hbc ⊢
                  exact ih ys zs hab hbc
                · rw [if_neg (lt_asymm h2), if_pos h2] at hbc
                  exact absurd hbc (by simp)
              · rw [if_neg (lt_asymm h1), if_pos h1] at hab
                exact absurd hab (by simp)

theorem charListLt_eq_of_not :
    ∀ (a b : List Char), charListLt a b = false → charListLt b a = false → a = b := by
  intro a
  induction a with
  | nil =>
      intro b h1 h2
      cases b with
      | nil => rfl
      | cons y ys => simp [charListLt] at h1
  | cons x xs ih =>
      intro b h1 h2
      cases b with
      | nil => simp [charListLt] at h2
      | cons y ys =>
          simp only [charListLt] at h1 h2
          rcases lt_trichotomy x y with h | rfl | h
          · rw [if_pos h] at h1
            exact absurd h1 (by simp)
          · rw [if_neg (lt_irrefl x), if_neg (lt_irrefl x)] at h1 h2
            rw [ih ys h1 h2]
          · rw [if_neg (lt_asymm h), if_pos h] at h2
            exact absurd h2 (by simp)

theorem strLt_irrefl (a : String) : strLt a a = false :=
  charListLt_irrefl a.data

theorem strLt_asymm {a b : String} (h : strLt a b = true) : strLt b a = false :=
  charListLt_asymm _ _ h

theorem strLt_trans {a b c : String} (h1 : strLt a b = true) (h2 : strLt b c = true) :
    strLt a c = true :=
  charListLt_trans _ _ _ h1 h2

theorem strLt_eq_of_not {a b : String} (h1 : strLt a b = false)
    (h2 : strLt b a = false) : a = b := by
  cases a; cases b
  exact congrArg String.mk (charListLt_eq_of_not _ _ h1 h2)

/-- Code-point less-or-equal on strings. -/
def strLe (a b : String) : Prop := strLt a b = true ∨ a = b

/-- The sort key of the `byType` comparator: `(name, kind, file)` with
absent name/kind as the empty string. -/
def sortKey (a : Address) : String × String × String :=
  (a.name.getD "", a.kind.getD "", a.file)

/-- Lexicographic less-or-equal on `(name, kind, file)` keys. -/
def keyLe (x y : String × String × String) : Prop :=
  strLt x.1 y.1 = true ∨
    (x.1 = y.1 ∧ (strLt x.2.1 y.2.1 = true ∨ (x.2.1 = y.2.1 ∧ strLe x.2.2 y.2.2)))

instance : DecidableRel keyLe := fun x y => by
  unfold keyLe strLe; infer_instance

theorem localeCompare_nonpos_iff (a b : String) :
    localeCompare a b ≤ 0 ↔ (strLt a b = true ∨ a = b) := by
  unfold localeCompare
  cases h1 : strLt a b with
  | true => simp
  | false =>
    cases h2 : strLt b a with
    | false => simp [strLt_eq_of_not h1 h2]
    | true =>
      have hne : a ≠ b := by
        rintro rfl
        rw [strLt_irrefl] at h2
        exact absurd h2 (by simp)
      simp only [Bool.false_eq_true, if_false, if_true]
      constructor
      · intro h
        exact absurd h (by decide)
      · rintro (h | h)
        · exact absurd h (by simp)
        · exact absurd h hne

theorem byTypeCompare_nonpos_iff (a b : Address) :
    byTypeCompare a b ≤ 0 ↔ keyLe (sortKey a) (sortKey b) := by
  unfold byTypeCompare sortKey keyLe strLe
  by_cases h1 : a.name.getD "" = b.name.getD ""
  · rw [if_neg (not_not_intro h1)]
    by_cases h2 : a.kind.getD "" = b.kind.getD ""
    · rw [if_neg (not_not_intro h2), localeCompare_nonpos_iff]
      constructor
      · intro h
        exact Or.inr ⟨h1, Or.inr ⟨h2, h⟩⟩
      · rintro (h | ⟨-, h | ⟨-, h⟩⟩)
        · rw [h1, strLt_irrefl] at h; exact absurd h (by simp)
        · rw [h2, strLt_irrefl] at h; exact absurd h (by simp)
        · exact h
    · rw [if_pos h2, localeCompare_nonpos_iff]
      constructor
      · rintro (h | h)
        · exact Or.inr ⟨h1, Or.inl h⟩
        · exact absurd h h2
      · rintro (h | ⟨-, h | ⟨he, -⟩⟩)
        · rw [h1, strLt_irrefl] at h; exact absurd h (by simp)
        · exact Or.inl h
        · exact absurd he h2
  · rw [if_pos h1, localeCompare_nonpos_iff]
    constructor
    · rintro (h | h)
      · exact Or.inl h
      · exact absurd h h1
    · rintro (h | ⟨he, -⟩)
      · exact Or.inl h
      · exact absurd he h1

theorem strLe_total (a b : String) : strLe a b ∨ strLe b a := by
  unfold strLe
  cases h1 : strLt a b with
  | true => exact Or.inl (Or.inl rfl)
  | false =>
    cases h2 : strLt b a with
    | true => exact Or.inr (Or.inl rfl)
    | false => exact Or.inl (Or.inr (strLt_eq_of_not h1 h2))

theorem strLe_trans {a b c : String} (h1 : strLe a b) (h2 : strLe b c) : strLe a c := by
  rcases h1 with h1 | rfl
  · rcases h2 with h2 | rfl
    · exact Or.inl (strLt_trans h1 h2)
    · exact Or.inl h1
  · exact h2

theorem keyLe_total (x y : String × String × String) : keyLe x y ∨ keyLe y x := by
  obtain ⟨x1, x2, x3⟩ := x
  obtain ⟨y1, y2, y3⟩ := y
  unfold keyLe
  cases h1 : strLt x1 y1 with
  | true => exact Or.inl (Or.inl rfl)
  | false =>
    cases h1' : strLt y1 x1 with
    | true => exact Or.inr (Or.inl rfl)
    | false =>
      have e1 : x1 = y1 := strLt_eq_of_not h1 h1'
      cases h2 : strLt x2 y2 with
      | true => exact Or.inl (Or.inr ⟨e1, Or.inl rfl⟩)
      | false =>
        cases h2' : strLt y2 x2 with
        | true => exact Or.inr (Or.inr ⟨e1.symm, Or.inl rfl⟩)
        | false =>
          have e2 : x2 = y2 := strLt_eq_of_not h2 h2'
          rcases strLe_total x3 y3 with h3 | h3
          · exact Or.inl (Or.inr ⟨e1, Or.inr ⟨e2, h3⟩⟩)
          · exact Or.inr (Or.inr ⟨e1.symm, Or.inr ⟨e2.symm, h3⟩⟩)

theorem keyLe_trans {x y z : String × String × String}
    (hxy : keyLe x y) (hyz : keyLe y z) : keyLe x z := by
  obtain ⟨x1, x2, x3⟩ := x
  obtain ⟨y1, y2, y3⟩ := y
  obtain ⟨z1, z2, z3⟩ := z
  unfold keyLe at *
  rcases hxy with h1 | ⟨e1, h1'⟩
  · rcases hyz with h2 | ⟨e2, -⟩
    · exact Or.inl (strLt_trans h1 h2)
    · exact Or.inl (e2 ▸ h1)
  · rcases hyz with h2 | ⟨e2, h2'⟩
    · exact Or.inl (e1 ▸ h2)
    · refine Or.inr ⟨e1.trans e2, ?_⟩
      rcases h1' with h1 | ⟨f1, h1''⟩
      · rcases h2' with h2 | ⟨f2, -⟩
        · exact Or.inl (strLt_trans h1 h2)
        · exact Or.inl (f2 ▸ h1)
      · rcases h2' with h2 | ⟨f2, h2''⟩
        · exact Or.inl (f1 ▸ h2)
        · exact Or.inr ⟨f1.trans f2, strLe_trans h1'' h2''⟩

instance : IsTotal Address (cmpLe byTypeCompare) :=
  ⟨fun a b => by
    unfold cmpLe
    rw [byTypeCompare_nonpos_iff, byTypeCompare_nonpos_iff]
    exact keyLe_total _ _⟩

instance : IsTrans Address (cmpLe byTypeCompare) :=
  ⟨fun a b c hab hbc => by
    unfold cmpLe at *
    rw [byTypeCompare_nonpos_iff] at *
    exact keyLe_trans hab hbc⟩

theorem jsSort_byType_sorted (l : List Address) :
    (jsSort byTypeCompare l).Pairwise (fun a b => keyLe (sortKey a) (sortKey b)) := by
  have h := List.sorted_insertionSort (cmpLe byTypeCompare) l
  exact h.imp (fun hab => (byTypeCompare_nonpos_iff _ _).mp hab)

/-- Claim C6: For every built (`buildOrganizedMaps`) or incrementally updated
(`rebuildMaps`) index and every block kind `k`, the sequence `byType[k]`
is non-decreasing under the lexicographic sort key
(name, then kind, then file path), with an absent name or kind treated as
the empty string. -/
theorem tfnav_C6_byType_sorted
    (idx : ProjectIndex) (k : String) (g : List Address)
    (hmem : (k, g) ∈ (buildOrganizedMaps idx).byType ∨
            (k, g) ∈ (rebuildMaps idx).byType) :
    g.Pairwise (fun a b => keyLe (sortKey a) (sortKey b)) := by
  have hmem' : (k, g) ∈ organizeByType idx.blocks := by
    rcases hmem with h | h <;> exact h
  obtain ⟨p, -, hp⟩ := List.mem_map.mp hmem'
  have : g = jsSort byTypeCompare p.2 := congrArg Prod.snd hp.symm
  rw [this]
  exact jsSort_byType_sorted p.2

/-- Concrete inputs for the C6 witness: two resources with names out of
order in the block list. -/
def blkW6a : Address :=
  { blockType := .resource, kind := some "aws_vpc", name := some "beta",
    modulePath := [], file := "main.tf", range := ⟨0, 10⟩ }

def blkW6b : Address :=
  { blockType := .resource, kind := some "aws_vpc", name := some "alpha",
    modulePath := [], file := "main.tf", range := ⟨11, 20⟩ }

def idxW6 : ProjectIndex :=
  { blocks := [blkW6a, blkW6b], byType := [], byFile := [], refs := none }

/-- Witness for C6: the membership hypothesis holds and the conclusion
follows at a concrete index. -/
theorem tfnav_C6_byType_sorted_witness :
    (("resource", [blkW6b, blkW6a]) ∈ (buildOrganizedMaps idxW6).byType ∨
      ("resource", [blkW6b, blkW6a]) ∈ (rebuildMaps idxW6).byType) ∧
    ([blkW6b, blkW6a].Pairwise (fun a b => keyLe (sortKey a) (sortKey b))) :=
  ⟨Or.inl (by decide),
   tfnav_C6_byType_sorted idxW6 "resource" [blkW6b, blkW6a] (Or.inl (by decide))⟩

/-! ## Regex scanning (`src/graph/refs.ts`)

The reference extractor scans block-scoped text with five global regexes
(`var\.ID`, `ID\.ID\.`, `data\.ID\.ID`, `local\.ID`,
`module\.ID(\.ID)?`, where `ID` is `[a-zA-Z_][a-zA-Z0-9_]*`).  A global
JS regex `exec` loop finds successive leftmost non-overlapping matches,
resuming after the end of each match.  Because an identifier class
character can never be the literal `.` that must follow it, these
patterns are matched by maximal munch with no backtracking, so each is
modelled as a deterministic matcher at a position plus a generic
leftmost-scan loop (`scanAll`). -/

/-- The source `[a-zA-Z_]`, the first character of an identifier group. -/
def isIdentStart (c : Char) : Bool := c.isAlpha || c == '_'

/-- The source `[a-zA-Z0-9_]`, a continuation character of an identifier group. -/
def isIdentChar (c : Char) : Bool := c.isAlphanum || c == '_'

/-- Match a maximal identifier (`[a-zA-Z_][a-zA-Z0-9_]*`) at the head of
the input; returns the identifier and the rest. -/
def takeIdent : List Char → Option (String × List Char)
  | [] => none
  | c :: cs =>
      if isIdentStart c then
        some (String.mk (c :: cs.takeWhile isIdentChar), cs.dropWhile isIdentChar)
      else none

/-- Match a literal character sequence at the head of the input. -/
def matchLit : List Char → List Char → Option (List Char)
  | [], l => some l
  | _ :: _, [] => none
  | c :: cs, x :: xs => if x = c then matchLit cs xs else none

/-- The source `var\.([a-zA-Z_][a-zA-Z0-9_]*)` at a position. -/
def matchVarAt (l : List Char) : Option (String × List Char) :=
  match matchLit "var.".data l with
  | none => none
  | some r => takeIdent r

/-- The source `local\.([a-zA-Z_][a-zA-Z0-9_]*)` at a position. -/
def matchLocalAt (l : List Char) : Option (String × List Char) :=
  match matchLit "local.".data l with
  | none => none
  | some r => takeIdent r

/-- The source `data\.(ID)\.(ID)` at a position. -/
def matchDataAt (l : List Char) : Option ((String × String) × List Char) :=
  match matchLit "data.".data l with
  | none => none
  | some r1 =>
    match takeIdent r1 with
    | none => none
    | some (t, r2) =>
      match r2 with
      | '.' :: r3 =>
        match takeIdent r3 with
        | none => none
        | some (n, r4) => some ((t, n), r4)
      | _ => none

/-- The source `(ID)\.(ID)\.` at a position (the trailing dot is part of the
match). -/
def matchResourceAt (l : List Char) : Option ((String × String) × List Char) :=
  match takeIdent l with
  | none => none
  | some (t, r1) =>
    match r1 with
    | '.' :: r2 =>
      match takeIdent r2 with
      | none => none
      | some (n, r3) =>
        match r3 with
        | '.' :: r4 => some ((t, n), r4)
        | _ => none
    | _ => none

/-- The source `module\.(ID)(?:\.(ID))?` at a position; the optional attribute group
is taken greedily when a `.`-identifier follows. -/
def matchModuleAt (l : List Char) : Option ((String × Option String) × List Char) :=
  match matchLit "module.".data l with
  | none => none
  | some r1 =>
    match takeIdent r1 with
    | none => none
    | some (n, r2) =>
      match r2 with
      | '.' :: r3 =>
        match takeIdent r3 with
        | some (a, r4) => some ((n, some a), r4)
        | none => some ((n, none), r2)
      | _ => some ((n, none), r2)

theorem matchLit_length :
    ∀ (lit l r : List Char), matchLit lit l = some r → r.length + lit.length = l.length := by
  intro lit
  induction lit with
  | nil =>
      intro l r h
      simp only [matchLit, Option.some.injEq] at h
      simp [← h]
  | cons c cs ih =>
      intro l r h
      cases l with
      | nil => simp [matchLit] at h
      | cons x xs =>
          simp only [matchLit] at h
          by_cases hx : x = c
          · rw [if_pos hx] at h
            have := ih xs r h
            simp only [List.length_cons]
            omega
          · rw [if_neg hx] at h
            exact absurd h (by simp)

theorem takeIdent_length :
    ∀ (l : List Char) (p : String × List Char), takeIdent l = some p →
      p.2.length < l.length := by
  intro l p h
  cases l with
  | nil => simp [takeIdent] at h
  | cons c cs =>
      simp only [takeIdent] at h
      by_cases hc : isIdentStart c = true
      · rw [if_pos hc] at h
        have h2 : p.2 = cs.dropWhile isIdentChar := by
          have := congrArg (fun o => Option.map Prod.snd o) h
          simpa using this.symm
        rw [h2]
        have : (cs.dropWhile isIdentChar).length ≤ cs.length :=
          (List.dropWhile_sublist _).length_le
        simp only [List.length_cons]
        omega
      · rw [if_neg hc] at h
        exact absurd h (by simp)

theorem matchVarAt_decr :
    ∀ (l : List Char) (p : String × List Char), matchVarAt l = some p →
      p.2.length < l.length := by
  intro l p h
  unfold matchVarAt at h
  cases hm : matchLit "var.".data l with
  | none => rw [hm] at h; exact absurd h (by simp)
  | some r =>
      rw [hm] at h
      have h1 := matchLit_length _ _ _ hm
      have h2 := takeIdent_length r p h
      simp only [String.data] at h1
      omega

theorem matchLocalAt_decr :
    ∀ (l : List Char) (p : String × List Char), matchLocalAt l = some p →
      p.2.length < l.length := by
  intro l p h
  unfold matchLocalAt at h
  cases hm : matchLit "local.".data l with
  | none => rw [hm] at h; exact absurd h (by simp)
  | some r =>
      rw [hm] at h
      have h1 := matchLit_length _ _ _ hm
      have h2 := takeIdent_length r p h
      omega

theorem matchDataAt_decr :
    ∀ (l : List Char) (p : (String × String) × List Char), matchDataAt l = some p →
      p.2.length < l.length := by
  intro l p h
  unfold matchDataAt at h
  split at h
  · exact absurd h (by simp)
  · next r1 hm =>
      have h1 := matchLit_length _ _ _ hm
      split at h
      · exact absurd h (by simp)
      · next t r2 h2 =>
          have hq := takeIdent_length r1 (t, r2) h2
          split at h
          · next r3 =>
              split at h
              · exact absurd h (by simp)
              · next n r4 h3 =>
                  have hq2 := takeIdent_length r3 (n, r4) h3
                  simp only [Option.some.injEq] at h
                  subst h
                  simp only [List.length_cons] at hq
                  simp only at hq2 ⊢
                  omega
          · exact absurd h (by simp)

theorem matchResourceAt_decr :
    ∀ (l : List Char) (p : (String × String) × List Char), matchResourceAt l = some p →
      p.2.length < l.length := by
  intro l p h
  unfold matchResourceAt at h
  split at h
  · exact absurd h (by simp)
  · next t r1 h1 =>
      have hq1 := takeIdent_length l (t, r1) h1
      split at h
      · next r2 =>
          split at h
          · exact absurd h (by simp)
          · next n r3 h2 =>
              have hq2 := takeIdent_length r2 (n, r3) h2
              split at h
              · next r4 =>
                  simp only [Option.some.injEq] at h
                  subst h
                  have hb : ('.' :: r2).length < l.length := hq1
                  have hc : ('.' :: r4).length < r2.length := hq2
                  show r4.length < l.length
                  simp only [List.length_cons] at hb hc
                  omega
              · exact absurd h (by simp)
      · exact absurd h (by simp)

theorem matchModuleAt_decr :
    ∀ (l : List Char) (p : (String × Option String) × List Char), matchModuleAt l = some p →
      p.2.length < l.length := by
  intro l p h
  unfold matchModuleAt at h
  split at h
  · exact absurd h (by simp)
  · next r1 hm =>
      have h1 := matchLit_length _ _ _ hm
      split at h
      · exact absurd h (by simp)
      · next n r2 h2 =>
          have hq := takeIdent_length r1 (n, r2) h2
          split at h
          · next r3 =>
              split at h
              · next a r4 h3 =>
                  have hq2 := takeIdent_length r3 (a, r4) h3
                  simp only [Option.some.injEq] at h
                  subst h
                  have hb : ('.' :: r3).length < r1.length := hq
                  have hc : r4.length < r3.length := hq2
                  show r4.length < l.length
                  simp only [List.length_cons] at hb
                  omega
              · simp only [Option.some.injEq] at h
                subst h
                have hb : ('.' :: r3).length < r1.length := hq
                show ('.' :: r3).length < l.length
                omega
          · simp only [Option.some.injEq] at h
            subst h
            have hb : r2.length < r1.length := hq
            show r2.length < l.length
            omega

/-- The global-regex `exec` loop, fuelled for structural recursion:
repeatedly find the leftmost match at or after the current position, emit
it, and resume after its end; advance one character past positions with
no match.  Each step consumes at least one character (the `*_decr` lemmas
above), so `scanAll` hands it fuel that can never run out. -/
def scanFuel {α : Type} (m : List Char → Option (α × List Char)) :
    Nat → List Char → List α
  | 0, _ => []
  | fuel + 1, l =>
    match m l with
    | some p => p.1 :: scanFuel m fuel p.2
    | none =>
      match l with
      | [] => []
      | _ :: cs => scanFuel m fuel cs

/-- Run a pattern's `exec` loop over a whole character list. -/
def scanAll {α : Type} (m : List Char → Option (α × List Char))
    (l : List Char) : List α :=
  scanFuel m (l.length + 1) l

/-- First-occurrence deduplication, the JS `Set` + `Array.from` idiom
(insertion order, first occurrence kept). -/
def dedupFirstAux (seen : List String) : List String → List String
  | [] => []
  | x :: xs =>
      if seen.contains x then dedupFirstAux seen xs
      else x :: dedupFirstAux (x :: seen) xs

/-- The source `Array.from(new Set(results))`. -/
def dedupFirst (l : List String) : List String := dedupFirstAux [] l

/-- The source `extractVariableReferencesFromContent` (`src/graph/refs.ts` 150-160):
all `var.NAME` matches, deduplicated via a `Set`. -/
def extractVariableReferencesFromContent (content : String) : List String :=
  dedupFirst (scanAll matchVarAt content.data)

/-- The source `extractResourceReferencesFromContent` (`src/graph/refs.ts` 165-196):
`TYPE.NAME.` matches with `var`/`local`/`data` heads skipped, followed by
all `data.TYPE.NAME` matches; no deduplication. -/
def extractResourceReferencesFromContent (content : String) :
    List (String × String) :=
  (scanAll matchResourceAt content.data).filter
      (fun p => !(p.1 == "var") && !(p.1 == "local") && !(p.1 == "data"))
    ++ scanAll matchDataAt content.data

/-- The source `extractModuleReferencesFromContent` (`src/graph/refs.ts` 665-681):
all `module.NAME` / `module.NAME.ATTR` matches, no deduplication. -/
def extractModuleReferencesFromContent (content : String) :
    List (String × Option String) :=
  scanAll matchModuleAt content.data

/-! ## Reference resolution and edge extraction (`src/graph/refs.ts`)

File reads (`fs.readFileSync`) are modelled against an explicit file
system, an association list from absolute path to content; `none` models
a read that throws (caught by the surrounding `try`). -/

/-- The file-system snapshot the extractor reads block content from. -/
def FileSys := List (String × String)

/-- The source `fs.readFileSync(path, 'utf8')`: `none` models a thrown error. -/
def readFileSync (fsys : FileSys) (p : String) : Option String :=
  List.lookup p fsys

/-- The source `String.prototype.substring(start, end)`: both indices clamped to
`[0, length]` and swapped when `start > end`. -/
def jsSubstring (s : String) (a b : Nat) : String :=
  let len := s.data.length
  let a' := min a len
  let b' := min b len
  String.mk ((s.data.drop (min a' b')).take (max a' b' - min a' b'))

/-- The source `String.prototype.includes` (substring containment). -/
def includesSub (sub : List Char) : List Char → Bool
  | [] => sub.isEmpty
  | c :: t => sub.isPrefixOf (c :: t) || includesSub sub t

/-- The source `hay.includes(sub)` on strings. -/
def strIncludes (hay sub : String) : Bool := includesSub sub.data hay.data

/-- The `reference.type` union in `findTargetAddress`
(`src/graph/refs.ts` 60-70). -/
inductive RefType where
  | resource
  | data
  | module
  | local
  | var
deriving DecidableEq, Repr

/-- The reference record passed to `findTargetAddress`.  The optional
`attribute` field of the TS record is never read by `findTargetAddress`
and is omitted. -/
structure Reference where
  type : RefType
  resourceType : Option String := none
  resourceName : String
  modulePath : Option (List String) := none
deriving DecidableEq, Repr

/-- The module-path check of `findTargetAddress` (lines 76-91): equal
length and equal elements at every position. -/
def modulePathMatches (target mp : List String) : Bool :=
  mp.length == target.length && (List.zip target mp).all (fun q => q.1 == q.2)

/-- The `switch (reference.type)` block-type/name matching of
`findTargetAddress` (lines 93-141). -/
def refTypeMatches (ref : Reference) (a : Address) : Bool :=
  match ref.type with
  | .resource =>
      a.blockType == .resource && a.kind == ref.resourceType &&
        a.name == some ref.resourceName
  | .data =>
      a.blockType == .data && a.kind == ref.resourceType &&
        a.name == some ref.resourceName
  | .module => a.blockType == .module && a.name == some ref.resourceName
  | .var => a.blockType == .variable' && a.name == some ref.resourceName
  | .local => a.blockType == .locals && a.name == some ref.resourceName

/-- The source `findTargetAddress` (`src/graph/refs.ts` 60-145): scan `index.blocks`
for the first block in the target module scope matching the reference. -/
def findTargetAddress (ref : Reference) (index : ProjectIndex)
    (sourceModulePath : List String) : Option Address :=
  let targetModulePath := ref.modulePath.getD sourceModulePath
  index.blocks.find? (fun a =>
    modulePathMatches targetModulePath a.modulePath && refTypeMatches ref a)

/-- The kind-specific identifier suffix of `createAddressString`
(`src/graph/refs.ts` 20-52). -/
def blockIdentParts (a : Address) : List String :=
  match a.blockType with
  | .resource =>
      match a.kind, a.name with
      | some k, some n => [k ++ "." ++ n]
      | _, _ => []
  | .data =>
      match a.kind, a.name with
      | some k, some n => ["data." ++ k ++ "." ++ n]
      | _, _ => []
  | .module =>
      match a.name with
      | some n => ["module." ++ n]
      | none => []
  | .variable' =>
      match a.name with
      | some n => ["var." ++ n]
      | none => []
  | .output =>
      match a.name with
      | some n => [n]
      | none => []
  | .locals =>
      match a.name with
      | some n => ["local." ++ n]
      | none => []

/-- The source `createAddressString` (`src/graph/refs.ts` 12-55): module path
segments plus the kind-specific suffix, period-joined. -/
def createAddressString (a : Address) : String :=
  String.intercalate "." (a.modulePath ++ blockIdentParts a)

/-- The deduplication key used by `extractReferenceEdges`:
`createAddressString(from) + '->' + createAddressString(to)`. -/
def edgeKey (e : Edge) : String :=
  createAddressString e.fromAddr ++ "->" ++ createAddressString e.toAddr

/-- The source `extractBlockReferences` (`src/graph/refs.ts` 201-295): read the
block's file, slice its byte range, and resolve the variable, resource
(including `data.`-pattern) and local scans in that order.  A failed read
(the `catch`) yields no edges. -/
def extractBlockReferences (fsys : FileSys) (sourceAddress : Address)
    (index : ProjectIndex) : List Edge :=
  match readFileSync fsys sourceAddress.file with
  | none => []
  | some fileContent =>
    let blockContent :=
      jsSubstring fileContent sourceAddress.range.start sourceAddress.range.stop
    let varEdges :=
      (extractVariableReferencesFromContent blockContent).filterMap (fun v =>
        (findTargetAddress { type := .var, resourceName := v } index
            sourceAddress.modulePath).map (fun t =>
          { fromAddr := sourceAddress, toAddr := t, type := .reference,
            attributes := { referenceType := "var", attr := some "variable" } }))
    let resourceEdges :=
      (extractResourceReferencesFromContent blockContent).filterMap (fun r =>
        (findTargetAddress
            { type := .resource, resourceType := some r.1, resourceName := r.2 }
            index sourceAddress.modulePath).map (fun t =>
          { fromAddr := sourceAddress, toAddr := t, type := .reference,
            attributes := { referenceType := "resource", attr := some "resource" } }))
    let localEdges :=
      (scanAll matchLocalAt blockContent.data).filterMap (fun v =>
        (findTargetAddress { type := .local, resourceName := v } index
            sourceAddress.modulePath).map (fun t =>
          { fromAddr := sourceAddress, toAddr := t, type := .reference,
            attributes := { referenceType := "local", attr := some "local" } }))
    varEdges ++ resourceEdges ++ localEdges

/-- The source `extractModuleContainmentEdges` (`src/graph/refs.ts` 452-597): for
every module block, find its member blocks by last-module-path-segment,
then by any-segment containment, then (for `./`/`../` local sources) by
file-path substring, taking the first non-empty strategy, and emit a
`contains` edge to each.  A `name`-less module block interpolates as the
JS string `"undefined"`. -/
def extractModuleContainmentEdges (index : ProjectIndex) : List Edge :=
  (index.blocks.filter (fun b => b.blockType == .module)).flatMap
    (fun moduleBlock =>
      let modulePathString := "module." ++ moduleBlock.name.getD "undefined"
      let byPath := index.blocks.filter (fun b =>
        !b.modulePath.isEmpty && b.modulePath.getLast? == some modulePathString)
      let byContains := index.blocks.filter (fun b =>
        b.modulePath.any (fun q => q == modulePathString))
      let byFilePath :=
        match moduleBlock.source with
        | some src =>
            if ['.', '/'].isPrefixOf src.data || ['.', '.', '/'].isPrefixOf src.data then
              let expectedPath :=
                if ['.', '/'].isPrefixOf src.data then src.drop 2 else src
              index.blocks.filter (fun b =>
                !(b.blockType == .module) && !(b.file == "") &&
                  strIncludes b.file expectedPath)
            else []
        | none => []
      let moduleResources :=
        if !byPath.isEmpty then byPath
        else if !byContains.isEmpty then byContains
        else if !byFilePath.isEmpty then byFilePath
        else []
      moduleResources.map (fun r =>
        { fromAddr := moduleBlock, toAddr := r, type := .contains,
          attributes := { referenceType := "module_containment",
                          relationship := some "contains" } }))

/-- The source `extractModuleToModuleEdges` (`src/graph/refs.ts` 602-660): for every
module block, slice its own source text, scan `module.NAME[.ATTR]`
references, and resolve each against module blocks with the same name at
the exact same module path; emit a `module_reference` edge per resolved
reference.  A failed file read yields no edges for that module. -/
def extractModuleToModuleEdges (fsys : FileSys) (index : ProjectIndex) : List Edge :=
  (index.blocks.filter (fun b => b.blockType == .module)).flatMap
    (fun sourceModule =>
      match readFileSync fsys sourceModule.file with
      | none => []
      | some fileContent =>
        let moduleContent :=
          jsSubstring fileContent sourceModule.range.start sourceModule.range.stop
        (extractModuleReferencesFromContent moduleContent).filterMap (fun mr =>
          (index.blocks.find? (fun b =>
              b.blockType == .module && b.name == some mr.1 &&
                b.modulePath.length == sourceModule.modulePath.length &&
                (List.zip b.modulePath sourceModule.modulePath).all
                  (fun q => q.1 == q.2))).map (fun targetModule =>
            { fromAddr := sourceModule, toAddr := targetModule, type := .reference,
              attributes := { referenceType := "module_reference", attr := mr.2,
                              relationship := some "uses" } })))

/-- The `processedPairs` deduplication loop of `extractReferenceEdges`:
keep an edge only when its key is unseen, in input order. -/
def dedupEdges (seen : List String) : List Edge → List Edge
  | [] => []
  | e :: rest =>
      if seen.contains (edgeKey e) then dedupEdges seen rest
      else e :: dedupEdges (edgeKey e :: seen) rest

/-- The per-block scan phase of `extractReferenceEdges` (lines 332-354):
blocks whose kind is `resource|data|module|locals`, in block-list order. -/
def blockScanEdges (fsys : FileSys) (index : ProjectIndex) : List Edge :=
  (index.blocks.filter (fun b =>
      [BlockType.resource, .data, .module, .locals].contains b.blockType)).flatMap
    (fun b => extractBlockReferences fsys b index)

/-- The source `extractReferenceEdges` (`src/graph/refs.ts` 300-361): module
containment edges, then module-to-module edges, then the per-block scan,
all deduplicated by `edgeKey` with the first occurrence winning (the
source's three sequential loops over one shared `processedPairs` set are
one dedup pass over the concatenation). -/
def extractReferenceEdges (fsys : FileSys) (index : ProjectIndex) : List Edge :=
  dedupEdges []
    (extractModuleContainmentEdges index ++ extractModuleToModuleEdges fsys index
      ++ blockScanEdges fsys index)

/-! ## Claim C2: exact module-path matching in reference resolution -/

theorem zip_all_eq :
    ∀ (xs ys : List String), xs.length = ys.length →
      ((xs.zip ys).all fun q => q.1 == q.2) = true → xs = ys := by
  intro xs
  induction xs with
  | nil =>
      intro ys hlen _
      cases ys with
      | nil => rfl
      | cons y ys => simp at hlen
  | cons x xs ih =>
      intro ys hlen hall
      cases ys with
      | nil => simp at hlen
      | cons y ys =>
          simp only [List.zip_cons_cons, List.all_cons, Bool.and_eq_true,
            beq_iff_eq] at hall
          simp only [List.length_cons, Nat.succ.injEq] at hlen
          rw [hall.1, ih ys hlen hall.2]

theorem modulePathMatches_iff (t mp : List String) :
    modulePathMatches t mp = true ↔ mp = t := by
  unfold modulePathMatches
  constructor
  · intro h
    simp only [Bool.and_eq_true, beq_iff_eq] at h
    exact (zip_all_eq t mp h.1.symm h.2) ▸ rfl
  · rintro rfl
    simp only [Bool.and_eq_true]
    refine ⟨by simp, ?_⟩
    induction mp with
    | nil => rfl
    | cons x xs ih => simpa using ih

/-- Claim C2: For every reference resolution performed during edge
extraction — the `var`, `resource`, `data`, `local` and `module` lookups
all go through `findTargetAddress`, and the module-to-module lookup of
`extractModuleToModuleEdges` repeats the same check — a candidate block
is matched only if its `modulePath` equals the target module path
(same length, equal elements at every position).  In particular a
reference with no explicit module path (such as `var.NAME`) resolves only
to a block whose `modulePath` is exactly the referencing block's, so a
deeper-nested homonym is never resolved. -/
theorem tfnav_C2_modulePath_exact_matching :
    (∀ (ref : Reference) (index : ProjectIndex) (smp : List String) (a : Address),
        findTargetAddress ref index smp = some a →
          a.modulePath = ref.modulePath.getD smp) ∧
    (∀ (ref : Reference) (index : ProjectIndex) (smp : List String) (a : Address),
        ref.modulePath = none → findTargetAddress ref index smp = some a →
          a.modulePath = smp) ∧
    (∀ (fsys : FileSys) (index : ProjectIndex) (e : Edge),
        e ∈ extractModuleToModuleEdges fsys index →
          e.toAddr.modulePath = e.fromAddr.modulePath) := by
  have hmain : ∀ (ref : Reference) (index : ProjectIndex) (smp : List String)
      (a : Address), findTargetAddress ref index smp = some a →
        a.modulePath = ref.modulePath.getD smp := by
    intro ref index smp a h
    unfold findTargetAddress at h
    have hp := List.find?_some h
    simp only [Bool.and_eq_true] at hp
    exact (modulePathMatches_iff _ _).mp hp.1
  refine ⟨hmain, ?_, ?_⟩
  · intro ref index smp a hnone h
    have := hmain ref index smp a h
    rwa [hnone] at this
  · intro fsys index e he
    unfold extractModuleToModuleEdges at he
    obtain ⟨src, -, he⟩ := List.mem_flatMap.mp he
    cases hread : readFileSync fsys src.file with
    | none => rw [hread] at he; simp at he
    | some content =>
        rw [hread] at he
        simp only [List.mem_filterMap] at he
        obtain ⟨mr, -, hmap⟩ := he
        cases hfind : index.blocks.find? (fun b =>
            b.blockType == .module && b.name == some mr.1 &&
              b.modulePath.length == src.modulePath.length &&
              (List.zip b.modulePath src.modulePath).all (fun q => q.1 == q.2)) with
        | none => rw [hfind] at hmap; simp at hmap
        | some target =>
            rw [hfind] at hmap
            simp only [Option.map, Option.some.injEq] at hmap
            have hq := List.find?_some hfind
            simp only [Bool.and_eq_true, beq_iff_eq] at hq
            have hlen : target.modulePath.length = src.modulePath.length := hq.1.2
            have heq : target.modulePath = src.modulePath :=
              zip_all_eq _ _ hlen hq.2
            subst hmap
            exact heq

/-- Concrete inputs for the C2 witness (the spec's Scenario D): a
same-scope `variable "region"` and a deeper homonym. -/
def varRootW2 : Address :=
  { blockType := .variable', name := some "region", modulePath := [],
    file := "variables.tf", range := ⟨0, 20⟩ }

def varDeepW2 : Address :=
  { blockType := .variable', name := some "region",
    modulePath := ["module.child"], file := "mod/variables.tf", range := ⟨0, 20⟩ }

def idxW2 : ProjectIndex :=
  { blocks := [varDeepW2, varRootW2], byType := [], byFile := [], refs := none }

/-- Module-to-module concrete inputs for the C2 witness (the spec's
Scenario C shape). -/
def modAW2 : Address :=
  { blockType := .module, name := some "a", modulePath := [],
    source := some "./a", file := "main.tf", range := ⟨0, 16⟩ }

def modBW2 : Address :=
  { blockType := .module, name := some "b", modulePath := [],
    source := some "./b", file := "main.tf", range := ⟨16, 16⟩ }

def idxW2m : ProjectIndex :=
  { blocks := [modAW2, modBW2], byType := [], byFile := [], refs := none }

def fsysW2 : FileSys := [("main.tf", "x = module.b.out")]

def edgeW2 : Edge :=
  { fromAddr := modAW2, toAddr := modBW2, type := .reference,
    attributes := { referenceType := "module_reference", attr := some "out",
                    relationship := some "uses" } }

/-- Witness for C2: at a concrete index, the `var.region` lookup from the
root scope resolves to the root-scope variable (not the deeper homonym),
and a concrete module-to-module edge connects modules at equal paths. -/
theorem tfnav_C2_modulePath_exact_matching_witness :
    (findTargetAddress { type := .var, resourceName := "region" } idxW2 []
        = some varRootW2 ∧
      varRootW2.modulePath =
        (Option.getD (Reference.modulePath
          { type := .var, resourceName := "region" }) [])) ∧
    (edgeW2 ∈ extractModuleToModuleEdges fsysW2 idxW2m ∧
      edgeW2.toAddr.modulePath = edgeW2.fromAddr.modulePath) :=
  ⟨⟨by decide,
    tfnav_C2_modulePath_exact_matching.1
      { type := .var, resourceName := "region" } idxW2 [] varRootW2 (by decide)⟩,
   ⟨by decide,
    tfnav_C2_modulePath_exact_matching.2.2 fsysW2 idxW2m edgeW2 (by decide)⟩⟩

/-! ## Claim C3: edge deduplication -/

theorem dedupEdges_spec :
    ∀ (l : List Edge) (seen : List String),
      (∀ e ∈ dedupEdges seen l, seen.contains (edgeKey e) = false) ∧
      (dedupEdges seen l).Pairwise (fun e1 e2 => edgeKey e1 ≠ edgeKey e2) := by
  intro l
  induction l with
  | nil => intro seen; simp [dedupEdges]
  | cons e rest ih =>
      intro seen
      unfold dedupEdges
      by_cases hs : seen.contains (edgeKey e) = true
      · rw [if_pos hs]
        exact ih seen
      · rw [if_neg hs]
        have hs' : seen.contains (edgeKey e) = false := by
          cases h : seen.contains (edgeKey e)
          · rfl
          · exact absurd h hs
        obtain ⟨ihmem, ihpw⟩ := ih (edgeKey e :: seen)
        constructor
        · intro e' he'
          rcases List.mem_cons.mp he' with rfl | he'
          · exact hs'
          · have := ihmem e' he'
            simp only [List.contains_cons, Bool.or_eq_false_iff] at this
            exact this.2
        · refine List.Pairwise.cons ?_ ihpw
          intro e' he'
          have := ihmem e' he'
          simp only [List.contains_cons, Bool.or_eq_false_iff] at this
          intro hkey
          have : (edgeKey e' == edgeKey e) = false := this.1
          rw [hkey] at this
          simp at this

theorem dedupEdges_filter_key :
    ∀ (l : List Edge) (seen : List String) (k : String),
      (dedupEdges seen l).filter (fun e => edgeKey e == k)
        = if seen.contains k then [] else
            (l.filter (fun e => edgeKey e == k)).take 1 := by
  intro l
  induction l with
  | nil =>
      intro seen k
      cases h : seen.contains k <;> simp [dedupEdges, h]
  | cons e rest ih =>
      intro seen k
      unfold dedupEdges
      by_cases hk : edgeKey e = k
      · subst hk
        by_cases hs : seen.contains (edgeKey e) = true
        · rw [if_pos hs, ih, if_pos hs, if_pos hs]
        · have hs' : seen.contains (edgeKey e) = false := by
            cases h : seen.contains (edgeKey e)
            · rfl
            · exact absurd h hs
          rw [if_neg hs]
          simp only [List.filter_cons, beq_self_eq_true, if_pos]
          rw [ih]
          have : (edgeKey e :: seen).contains (edgeKey e) = true := by
            simp [List.contains_cons]
          rw [if_pos this, hs']
          simp
      · have hkb : (edgeKey e == k) = false := by
          simp [hk]
        by_cases hs : seen.contains (edgeKey e) = true
        · rw [if_pos hs, ih]
          simp only [List.filter_cons, hkb]
          simp
        · rw [if_neg hs]
          simp only [List.filter_cons, hkb, Bool.false_eq_true, if_false]
          rw [ih]
          have hcons : (edgeKey e :: seen).contains k = seen.contains k := by
            simp only [List.contains_cons]
            have : (k == edgeKey e) = false := by
              simp only [beq_eq_false_iff_ne, ne_eq]
              intro hsym
              exact hk hsym.symm
            rw [this]
            simp
          rw [hcons]

/-- Claim C3: In the edge list returned by `extractReferenceEdges`, for any
two distinct surviving edges the ordered pair of fully-qualified address
strings differs (at most one edge per `(from, to)` pair); and for every
dedup key, the surviving edge is the first-extracted one among the
concatenation of the three extraction phases, which run in the order:
module-containment, then module-to-module, then the per-block scan in
block-list order (that concatenation is `extractReferenceEdges`'s input,
mirroring the source's three sequential loops). -/
theorem tfnav_C3_edge_dedup (fsys : FileSys) (index : ProjectIndex) :
    (extractReferenceEdges fsys index).Pairwise
      (fun e1 e2 => ¬ (createAddressString e1.fromAddr = createAddressString e2.fromAddr ∧
                        createAddressString e1.toAddr = createAddressString e2.toAddr)) ∧
    (∀ k : String,
      (extractReferenceEdges fsys index).filter (fun e => edgeKey e == k)
        = ((extractModuleContainmentEdges index ++ extractModuleToModuleEdges fsys index
            ++ blockScanEdges fsys index).filter (fun e => edgeKey e == k)).take 1) := by
  constructor
  · have h := (dedupEdges_spec
      (extractModuleContainmentEdges index ++ extractModuleToModuleEdges fsys index
        ++ blockScanEdges fsys index) []).2
    refine h.imp ?_
    intro e1 e2 hne ⟨hf, ht⟩
    exact hne (by unfold edgeKey; rw [hf, ht])
  · intro k
    have h := dedupEdges_filter_key
      (extractModuleContainmentEdges index ++ extractModuleToModuleEdges fsys index
        ++ blockScanEdges fsys index) [] k
    simpa [extractReferenceEdges] using h

/-! ## Claim C4: `data.TYPE.NAME` references

`extractBlockReferences` funnels the matches of the dedicated
`data\.TYPE\.NAME` pattern into `findTargetAddress` with reference type
`'resource'` (`src/graph/refs.ts` 244-263: `{ type: 'resource', ... }`),
so they are resolved against `resource` blocks only, although
`findTargetAddress` has a `'data'` case (lines 105-113) that would
resolve them against `data` blocks. -/

/-- Failing input for C4: a resource block whose body mentions
`data.aws_ami.ubuntu.id`. -/
def resW4 : Address :=
  { blockType := .resource, kind := some "aws_instance", name := some "web",
    modulePath := [], file := "main.tf", range := ⟨0, 100⟩ }

/-- The matching data block (`data "aws_ami" "ubuntu"`) in the same
(root) module scope. -/
def dataW4 : Address :=
  { blockType := .data, kind := some "aws_ami", name := some "ubuntu",
    modulePath := [], file := "data.tf", range := ⟨0, 0⟩ }

def idxW4 : ProjectIndex :=
  { blocks := [resW4, dataW4], byType := [], byFile := [], refs := none }

def fsysW4 : FileSys :=
  [("main.tf", "resource \"aws_instance\" \"web\" { ami = data.aws_ami.ubuntu.id }"),
   ("data.tf", "")]

/-- Claim C4 (code bug): At the failing input, the scan does see the
`data.aws_ami.ubuntu` occurrence, and `findTargetAddress` *would* resolve
it to the data block if called with reference type `'data'` — yet
`extractBlockReferences` emits no edge at all (it resolves the occurrence
as a `'resource'` reference, which matches no block), contradicting the
claim that a reference edge to the matched data block is emitted. -/
theorem tfnav_C4_data_reference_not_resolved :
    (extractResourceReferencesFromContent
        "resource \"aws_instance\" \"web\" { ami = data.aws_ami.ubuntu.id }"
      = [("aws_ami", "ubuntu")]) ∧
    (findTargetAddress
        { type := .data, resourceType := some "aws_ami", resourceName := "ubuntu" }
        idxW4 [] = some dataW4) ∧
    (extractBlockReferences fsysW4 resW4 idxW4 = []) := by
  refine ⟨by decide, by decide, by decide⟩

/-! ## Claim C5: `refs` across incremental updates

`processUpdates`/`processDeletedFiles`/`processChangedFiles`
(`src/indexer/watch.ts` 240-388) mutate `index.blocks` and call
`rebuildMaps`, which repopulates `byType`/`byFile` only; nothing in the
incremental path touches `index.refs` (reference extraction runs only
inside `buildIndex`, `src/indexer/buildIndex.ts` line 172). -/

def blkAW5 : Address :=
  { blockType := .resource, kind := some "aws_vpc", name := some "main",
    modulePath := [], file := "a.tf", range := ⟨0, 10⟩ }

def blkBW5 : Address :=
  { blockType := .resource, kind := some "aws_subnet", name := some "pub",
    modulePath := [], file := "b.tf", range := ⟨0, 10⟩ }

def edgeW5 : Edge :=
  { fromAddr := blkBW5, toAddr := blkAW5, type := .reference,
    attributes := { referenceType := "resource", attr := some "resource" } }

def idxW5 : ProjectIndex :=
  { blocks := [blkAW5, blkBW5], byType := [], byFile := [],
    refs := some [edgeW5] }

def batchW5 : UpdateBatch := { changed := [], created := [], deleted := ["a.tf"] }

/-- Claim C5 counterexample: After the incremental updater processes a
batch deleting `a.tf`, the old edge pointing at the deleted file's block
is still in `refs` while its target block is gone from `blocks` — so
`refs` is *not* re-derived and *does* reference a removed block,
contradicting the claim. -/
theorem tfnav_C5_counterexample :
    (processUpdates batchW5 (fun _ => []) idxW5).refs = some [edgeW5] ∧
    edgeW5.toAddr.file ∈ batchW5.deleted ∧
    edgeW5.toAddr ∉ (processUpdates batchW5 (fun _ => []) idxW5).blocks := by
  refine ⟨by decide, by decide, by decide⟩

/-- Claim C5 (amended): The incremental updater never re-derives `refs`:
after any debounced batch, `index.refs` is exactly what it was before the
batch (stale edges, including edges to removed blocks, persist until a
full build re-runs `extractReferenceEdges`). -/
theorem tfnav_C5_refs_left_unchanged
    (batch : UpdateBatch) (parse : String → List Address) (idx : ProjectIndex) :
    (processUpdates batch parse idx).refs = idx.refs := by
  by_cases h1 : batch.deleted ≠ [] <;>
    by_cases h2 : batch.changed ++ batch.created ≠ [] <;>
      simp [processUpdates, h1, h2, processChangedFiles, processDeletedFiles,
        rebuildMaps]

/-! ## The parse cache (`src/indexer/cache.ts`)

`TerraformParseCache` is a `Map` keyed by the *string*
`path:mtimeMs:size` (`keyToString`).  `get` stats the file, builds the
current key string and looks it up; `set` stats the file and stores a
defensively-copied result under the current key string.

Modelling choices: the `fs.promises.stat` outcome is an explicit
parameter (`none` models a thrown stat, caught by `get`/`set`);
`Date.now()` is an explicit `now`; `mtimeMs`/`size` are `Nat` (their JS
decimal renderings contain no `:`).  The stored `result` is a list of
block object ids into an explicit heap — see the C8 aliasing model
below — because `get` returns the stored object itself while `set`
stores a clone.  The hit/miss statistics counters have no effect on
`get`/`set` results and are not modelled. -/

/-- The source `CacheKey` (`src/indexer/cache.ts` 13-17). -/
structure CacheKey where
  path : String
  mtimeMs : Nat
  size : Nat
deriving DecidableEq, Repr

/-- The source `keyToString` (`src/indexer/cache.ts` 231-233). -/
def keyToString (k : CacheKey) : String :=
  k.path ++ ":" ++ toString k.mtimeMs ++ ":" ++ toString k.size

/-- The source `CacheEntry` (`src/indexer/cache.ts` 22-27); `result` holds heap ids
of the cloned block objects. -/
structure CacheEntry where
  key : CacheKey
  result : List Nat
  cachedAt : Nat
  hitCount : Nat
deriving DecidableEq, Repr

/-- The cache `Map`, in insertion order. -/
def Cache := List (String × CacheEntry)

/-- The source `isExpired` (`src/indexer/cache.ts` 249-252): age above `maxAgeMs`
(`Nat` subtraction truncates at zero exactly as the JS negative-age case
falls below `maxAgeMs`). -/
def cacheEntryExpired (now maxAgeMs : Nat) (e : CacheEntry) : Bool :=
  now - e.cachedAt > maxAgeMs

/-- The source `isKeyValid` (`src/indexer/cache.ts` 238-244): exact match on all
three components. -/
def isKeyValid (current cached : CacheKey) : Bool :=
  current.path == cached.path && current.mtimeMs == cached.mtimeMs &&
    current.size == cached.size

/-- The source `Map.delete(key)`. -/
def eraseKey (k : String) : List (String × CacheEntry) → List (String × CacheEntry)
  | [] => []
  | (k', v) :: rest => if k' = k then rest else (k', v) :: eraseKey k rest

/-- Mutating the entry stored under `k` in place (`entry.hitCount++`
mutates the object held by the `Map`). -/
def replaceEntry (k : String) (v : CacheEntry) :
    List (String × CacheEntry) → List (String × CacheEntry)
  | [] => []
  | (k', v') :: rest => if k' = k then (k', v) :: rest else (k', v') :: replaceEntry k v rest

/-- The source `TerraformParseCache.get` (`src/indexer/cache.ts` 81-124).  Returns
the result (or `none`) and the cache map after the call.  `stat?` is the
`fs.promises.stat` outcome; `none` lands in the `catch` and returns
`null` leaving the map untouched. -/
def TerraformParseCache.get (cache : List (String × CacheEntry))
    (stat? : Option CacheKey) (now maxAgeMs : Nat) :
    Option (List Nat) × List (String × CacheEntry) :=
  match stat? with
  | none => (none, cache)
  | some st =>
    let cacheKey := keyToString st
    match List.lookup cacheKey cache with
    | none => (none, cache)
    | some entry =>
      if cacheEntryExpired now maxAgeMs entry then
        (none, eraseKey cacheKey cache)
      else if !(isKeyValid st entry.key) then
        (none, eraseKey cacheKey cache)
      else
        (some entry.result,
         replaceEntry cacheKey { entry with hitCount := entry.hitCount + 1 } cache)

/-- Concrete inputs for the C7 counterexample: an entry cached at
mtime 1, and the file then changing to mtime 2. -/
def entryW7 : CacheEntry :=
  { key := { path := "p.tf", mtimeMs := 1, size := 10 }, result := [],
    cachedAt := 0, hitCount := 0 }

def cacheW7 : List (String × CacheEntry) :=
  [(keyToString { path := "p.tf", mtimeMs := 1, size := 10 }, entryW7)]

/-- Claim C7 counterexample: A stored entry for `p.tf` exists but its key
does not match the current stat (mtime changed from 1 to 2): `get`
returns `null` as a miss, but does *not* delete the stale entry — the
cache after the call still holds it (it sits under the old key string,
which the current-key lookup never reaches).  Likewise when the file no
longer exists (`stat?` = `none`).  This contradicts the claim's
"silently deletes the stale entry" part. -/
theorem tfnav_C7_counterexample :
    entryW7.key.path = "p.tf" ∧
    TerraformParseCache.get cacheW7
        (some { path := "p.tf", mtimeMs := 2, size := 10 }) 0 300000
      = (none, cacheW7) ∧
    TerraformParseCache.get cacheW7 none 0 300000 = (none, cacheW7) ∧
    (keyToString { path := "p.tf", mtimeMs := 1, size := 10 }, entryW7) ∈ cacheW7 := by
  refine ⟨by decide, by decide, by decide, by decide⟩

/-- Claim C7 (amended): For every `get(path)` where the file's current stat
key does not hit the map — because the key string differs from every
stored key (any path/mtime/size mismatch lands here, the map being keyed
by `path:mtime:size`), or because the file no longer exists — the call
returns `null` as a miss and never raises, and the cache map is left
completely unchanged: in particular a stale entry for the same path is
*not* deleted by `get` (it is removed only by `evict`/`clear`, or by the
expiry/capacity purges). -/
theorem tfnav_C7_mismatch_is_miss_without_delete :
    (∀ (cache : List (String × CacheEntry)) (st : CacheKey) (now maxAgeMs : Nat),
        List.lookup (keyToString st) cache = none →
          TerraformParseCache.get cache (some st) now maxAgeMs = (none, cache)) ∧
    (∀ (cache : List (String × CacheEntry)) (now maxAgeMs : Nat),
        TerraformParseCache.get cache none now maxAgeMs = (none, cache)) := by
  constructor
  · intro cache st now maxAgeMs hmiss
    simp [TerraformParseCache.get, hmiss]
  · intro cache now maxAgeMs
    rfl

/-- Witness for C7's amended theorem at a concrete stale cache. -/
theorem tfnav_C7_mismatch_is_miss_without_delete_witness :
    (List.lookup (keyToString { path := "p.tf", mtimeMs := 2, size := 10 }) cacheW7
        = none) ∧
    TerraformParseCache.get cacheW7
        (some { path := "p.tf", mtimeMs := 2, size := 10 }) 7 300000
      = (none, cacheW7) :=
  ⟨by decide,
   tfnav_C7_mismatch_is_miss_without_delete.1 cacheW7
     { path := "p.tf", mtimeMs := 2, size := 10 } 7 300000 (by decide)⟩

/-! ## Claim C8: aliasing across the cache boundary

The cache stores `ParseResult`s whose `blocks` are JS objects.  To talk
about caller mutations we model the object graph explicitly: a heap of
block objects addressed by id, plus a heap of the `modulePath` array
objects (a spread `{ ...block }` copies the *field values*, so the copy
shares the same `modulePath` array reference).  `deepCloneParseResult`
(`src/indexer/cache.ts` 319-326) maps each block to `{ ...block }`,
i.e. allocates a fresh object with the same field values.  `set` stores
the clone (line 137); `get` returns `entry.result` itself (line 118). -/

/-- A `Block`/`Address` object's field values; `modulePathRef` is the
reference to the shared `modulePath` array object. -/
structure BlockObj where
  blockType : BlockType := .resource
  kind : Option String := none
  name : Option String := none
  provider : Option String := none
  modulePathRef : Nat := 0
  file : String := ""
deriving DecidableEq, Repr

/-- The JS object heap: block objects and `modulePath` array objects by
id, with a fresh-id counter. -/
structure Heap where
  blocks : List (Nat × BlockObj)
  arrays : List (Nat × List String)
  nextId : Nat
deriving DecidableEq, Repr

/-- Dereference a block object id (dangling ids read as a default
object; the theorems below only use well-formed heaps). -/
def Heap.lookupBlock (h : Heap) (i : Nat) : BlockObj :=
  ((h.blocks.find? (fun p => p.1 == i)).map (fun p => p.2)).getD {}

/-- Allocate a fresh block object. -/
def Heap.allocBlock (h : Heap) (b : BlockObj) : Nat × Heap :=
  (h.nextId,
   { h with blocks := (h.nextId, b) :: h.blocks, nextId := h.nextId + 1 })

/-- A caller mutation `block.name = n` through a block reference. -/
def Heap.setBlockName (h : Heap) (i : Nat) (n : Option String) : Heap :=
  { h with blocks := h.blocks.map (fun p =>
      if p.1 == i then (p.1, { p.2 with name := n }) else p) }

/-- The source `deepCloneParseResult` (`src/indexer/cache.ts` 319-326):
`result.blocks.map(block => ({ ...block }))` — fresh objects with copied
field values (including the shared `modulePathRef`). -/
def deepCloneParseResult (h : Heap) : List Nat → List Nat × Heap
  | [] => ([], h)
  | i :: is =>
      let (j, h1) := h.allocBlock (h.lookupBlock i)
      let (js, h2) := deepCloneParseResult h1 is
      (j :: js, h2)

/-- The source `Map.set(key, value)`: replace in place if present, else append. -/
def mapSet (k : String) (v : CacheEntry) :
    List (String × CacheEntry) → List (String × CacheEntry)
  | [] => [(k, v)]
  | (k', v') :: rest =>
      if k' = k then (k, v) :: rest else (k', v') :: mapSet k v rest

/-- The source `evictExpired` (`src/indexer/cache.ts` 284-300). -/
def evictExpired (now maxAgeMs : Nat) (cache : List (String × CacheEntry)) :
    List (String × CacheEntry) :=
  cache.filter (fun p => !(cacheEntryExpired now maxAgeMs p.2))

/-- The capacity-eviction sort order (`cachedAt` ascending). -/
def entryCmpLe (a b : String × CacheEntry) : Prop :=
  a.2.cachedAt ≤ b.2.cachedAt

instance : DecidableRel entryCmpLe := fun a b => Nat.decLe _ _

/-- The source `evictIfNeeded` (`src/indexer/cache.ts` 257-279): purge expired
entries, then while over capacity drop oldest-by-`cachedAt`. -/
def evictIfNeeded (now maxAgeMs maxEntries : Nat)
    (cache : List (String × CacheEntry)) : List (String × CacheEntry) :=
  let c1 := evictExpired now maxAgeMs cache
  if c1.length > maxEntries then
    let sorted := List.insertionSort entryCmpLe c1
    let toRemove := (sorted.take (c1.length - maxEntries)).map (fun p => p.1)
    c1.filter (fun p => !(toRemove.contains p.1))
  else c1

/-- The source `TerraformParseCache.set` (`src/indexer/cache.ts` 129-152): clone the
result, store it under the current key string, then enforce the limits.
A thrown stat (`stat?` = `none`) is caught and leaves everything
unchanged. -/
def TerraformParseCache.set (h : Heap) (cache : List (String × CacheEntry))
    (stat? : Option CacheKey) (ids : List Nat) (now maxAgeMs maxEntries : Nat) :
    Heap × List (String × CacheEntry) :=
  match stat? with
  | none => (h, cache)
  | some st =>
      let (ids', h') := deepCloneParseResult h ids
      let entry : CacheEntry :=
        { key := st, result := ids', cachedAt := now, hitCount := 0 }
      (h', evictIfNeeded now maxAgeMs maxEntries (mapSet (keyToString st) entry cache))

/-- What a caller observes when reading the blocks of a returned
`ParseResult`: each id dereferenced in the current heap. -/
def observeResult (h : Heap) (ids : List Nat) : List BlockObj :=
  ids.map h.lookupBlock

/-- Concrete inputs for the C8 counterexample. -/
def objW8 : BlockObj := { name := some "a", modulePathRef := 0 }

def heapW8 : Heap := { blocks := [(1, objW8)], arrays := [(0, [])], nextId := 2 }

def statW8 : CacheKey := { path := "m.tf", mtimeMs := 1, size := 5 }

/-- The heap and cache after `set(path, result)` with the single block
object `1`; the clone gets id `2`. -/
def setResW8 : Heap × List (String × CacheEntry) :=
  TerraformParseCache.set heapW8 [] (some statW8) [1] 0 300000 1000

def getResW8 : Option (List Nat) × List (String × CacheEntry) :=
  TerraformParseCache.get setResW8.2 (some statW8) 0 300000

/-- The caller mutates the block object returned by `get` (id `2`). -/
def mutHeapW8 : Heap := setResW8.1.setBlockName 2 (some "b")

def secondGetW8 : Option (List Nat) × List (String × CacheEntry) :=
  TerraformParseCache.get getResW8.2 (some statW8) 0 300000

/-- Claim C8 counterexample: `get` hands out the stored block objects
themselves: the first `get` returns block id `2` observing `name = "a"`;
after the caller mutates that returned object, a subsequent `get` returns
the very same object, now observing `name = "b"` — mutating the
`ParseResult` returned by `get` *does* change what a later `get(path)`
returns, contradicting the claim's read-path half. -/
theorem tfnav_C8_counterexample :
    getResW8.1 = some [2] ∧
    observeResult setResW8.1 [2] = [objW8] ∧
    secondGetW8.1 = some [2] ∧
    observeResult mutHeapW8 [2] = [{ objW8 with name := some "b" }] ∧
    ({ objW8 with name := some "b" } : BlockObj) ≠ objW8 := by
  refine ⟨by decide, by decide, by decide, by decide, by decide⟩

theorem lookupBlock_alloc_lt (h : Heap) (b : BlockObj) (j : Nat) (hj : j < h.nextId) :
    (h.allocBlock b).2.lookupBlock j = h.lookupBlock j := by
  unfold Heap.allocBlock Heap.lookupBlock
  rw [List.find?_cons_of_neg _ (by simp; omega)]

theorem lookupBlock_alloc_self (h : Heap) (b : BlockObj) :
    (h.allocBlock b).2.lookupBlock h.nextId = b := by
  unfold Heap.allocBlock Heap.lookupBlock
  rw [List.find?_cons_of_pos _ (by simp)]
  rfl

theorem deepClone_spec :
    ∀ (ids : List Nat) (h : Heap),
      (∀ id ∈ ids, id < h.nextId) →
      h.nextId ≤ (deepCloneParseResult h ids).2.nextId ∧
      (∀ j ∈ (deepCloneParseResult h ids).1, h.nextId ≤ j) ∧
      (∀ j, j < h.nextId →
        (deepCloneParseResult h ids).2.lookupBlock j = h.lookupBlock j) ∧
      observeResult (deepCloneParseResult h ids).2 (deepCloneParseResult h ids).1
        = observeResult h ids := by
  intro ids
  induction ids with
  | nil =>
      intro h _
      refine ⟨Nat.le_refl _, ?_, ?_, rfl⟩
      · intro j hj; simp [deepCloneParseResult] at hj
      · intro j _; rfl
  | cons i is ih =>
      intro h hids
      have hstep : deepCloneParseResult h (i :: is)
          = ((h.allocBlock (h.lookupBlock i)).1 ::
              (deepCloneParseResult (h.allocBlock (h.lookupBlock i)).2 is).1,
             (deepCloneParseResult (h.allocBlock (h.lookupBlock i)).2 is).2) := rfl
      set h1 := (h.allocBlock (h.lookupBlock i)).2 with hh1
      have h1next : h1.nextId = h.nextId + 1 := rfl
      have hids1 : ∀ id ∈ is, id < h1.nextId := by
        intro id hid
        have := hids id (List.mem_cons_of_mem _ hid)
        omega
      obtain ⟨ihn, ihfresh, ihold, ihobs⟩ := ih h1 hids1
      rw [hstep]
      refine ⟨?_, ?_, ?_, ?_⟩
      · simp only
        omega
      · intro j hj
        simp only [List.mem_cons] at hj
        rcases hj with rfl | hj
        · exact Nat.le_refl _
        · have := ihfresh j hj
          omega
      · intro j hjlt
        simp only
        rw [ihold j (by omega)]
        exact lookupBlock_alloc_lt h _ j hjlt
      · simp only [observeResult, List.map_cons]
        have hhead : (deepCloneParseResult h1 is).2.lookupBlock
            (h.allocBlock (h.lookupBlock i)).1 = h.lookupBlock i := by
          have : (h.allocBlock (h.lookupBlock i)).1 = h.nextId := rfl
          rw [this, ihold h.nextId (by omega)]
          exact lookupBlock_alloc_self h _
        rw [hhead]
        have htail : observeResult (deepCloneParseResult h1 is).2
            (deepCloneParseResult h1 is).1 = observeResult h is := by
          rw [ihobs]
          unfold observeResult
          apply List.map_congr_left
          intro id hid
          exact lookupBlock_alloc_lt h _ id (hids id (List.mem_cons_of_mem _ hid))
        simpa [observeResult] using htail

theorem find?_map_setName (i : Nat) (n : Option String) (j : Nat) (hne : j ≠ i) :
    ∀ l : List (Nat × BlockObj),
      List.find? (fun p => p.1 == j)
          (l.map (fun p => if p.1 == i then (p.1, { p.2 with name := n }) else p))
        = List.find? (fun p => p.1 == j) l := by
  intro l
  induction l with
  | nil => rfl
  | cons p rest ihl =>
      obtain ⟨k, b⟩ := p
      simp only [List.map_cons]
      by_cases hkj : k = j
      · subst hkj
        rw [if_neg (by simp; exact hne)]
        rw [List.find?_cons_of_pos _ (by simp), List.find?_cons_of_pos _ (by simp)]
      · by_cases hki : k = i
        · subst hki
          rw [if_pos (by simp)]
          rw [List.find?_cons_of_neg _ (by simp [hkj]),
            List.find?_cons_of_neg _ (by simp [hkj])]
          exact ihl
        · rw [if_neg (by simp [hki])]
          rw [List.find?_cons_of_neg _ (by simp [hkj]),
            List.find?_cons_of_neg _ (by simp [hkj])]
          exact ihl

theorem lookupBlock_setName_ne (h : Heap) (i : Nat) (n : Option String)
    (j : Nat) (hne : j ≠ i) :
    (h.setBlockName i n).lookupBlock j = h.lookupBlock j := by
  unfold Heap.setBlockName Heap.lookupBlock
  rw [find?_map_setName i n j hne]

theorem find?_map_setName_self (i : Nat) (n : Option String) :
    ∀ l : List (Nat × BlockObj),
      (List.find? (fun p => p.1 == i) l).isSome = true →
        ((Option.map (fun p : Nat × BlockObj => p.2)
            (List.find? (fun p => p.1 == i)
              (l.map (fun p : Nat × BlockObj =>
                if p.1 == i then (p.1, { p.2 with name := n }) else p)))).getD
          ({} : BlockObj)).name = n := by
  intro l
  induction l with
  | nil => intro hp; simp at hp
  | cons p rest ihl =>
      intro hp
      obtain ⟨k, b⟩ := p
      simp only [List.map_cons]
      by_cases hki : k = i
      · subst hki
        rw [if_pos (by simp)]
        rw [List.find?_cons_of_pos _ (by simp)]
        rfl
      · rw [if_neg (by simp [hki])]
        rw [List.find?_cons_of_neg _ (by simp [hki])]
        rw [List.find?_cons_of_neg _ (by simp [hki])] at hp
        exact ihl hp

theorem lookupBlock_setName_self (h : Heap) (i : Nat) (n : Option String)
    (hp : (h.blocks.find? (fun p => p.1 == i)).isSome = true) :
    ((h.setBlockName i n).lookupBlock i).name = n := by
  unfold Heap.setBlockName Heap.lookupBlock
  exact find?_map_setName_self i n h.blocks hp

theorem lookup_replaceEntry (k : String) (v : CacheEntry) :
    ∀ (cache : List (String × CacheEntry)) (e : CacheEntry),
      List.lookup k cache = some e →
        List.lookup k (replaceEntry k v cache) = some v := by
  intro cache
  induction cache with
  | nil => intro e he; simp at he
  | cons p rest ihl =>
      intro e he
      obtain ⟨k', v'⟩ := p
      by_cases hk : k' = k
      · subst hk
        simp [replaceEntry, List.lookup_cons]
      · have hbeq : (k == k') = false :=
          beq_false_of_ne (fun hh => hk hh.symm)
        simp only [List.lookup_cons, hbeq] at he
        simp only [replaceEntry, if_neg hk, List.lookup_cons, hbeq]
        exact ihl e he

theorem isKeyValid_self (st : CacheKey) : isKeyValid st st = true := by
  simp [isKeyValid]

/-- Claim C8 (amended, corrected claim): The parse cache defensively copies
on the *write* path only.  (a) `set` stores `deepCloneParseResult`'s
fresh objects, so mutating any pre-existing block object — in particular
any block of the `ParseResult` passed to `set` — does not change what the
stored clone observes.  (b) After `set` into an empty cache, `get`
returns exactly the cloned ids.  (c) On the *read* path there is no copy:
`get` returns the stored `entry.result` itself, and a subsequent `get`
returns the same object again, so (d) a caller mutation through the
returned object is visible in what later `get`s observe. -/
theorem tfnav_C8_write_copied_read_aliased :
    (∀ (h : Heap) (ids : List Nat) (i : Nat) (n : Option String),
        (∀ id ∈ ids, id < h.nextId) → i < h.nextId →
          observeResult
              ((deepCloneParseResult h ids).2.setBlockName i n)
              (deepCloneParseResult h ids).1
            = observeResult h ids) ∧
    (∀ (h : Heap) (st : CacheKey) (ids : List Nat) (now maxAgeMs maxEntries : Nat),
        1 ≤ maxEntries →
          (TerraformParseCache.get
              (TerraformParseCache.set h [] (some st) ids now maxAgeMs maxEntries).2
              (some st) now maxAgeMs).1
            = some (deepCloneParseResult h ids).1) ∧
    (∀ (cache : List (String × CacheEntry)) (st : CacheKey) (now maxAgeMs : Nat)
        (r : List Nat) (c' : List (String × CacheEntry)),
        TerraformParseCache.get cache (some st) now maxAgeMs = (some r, c') →
          (TerraformParseCache.get c' (some st) now maxAgeMs).1 = some r) ∧
    (∀ (h : Heap) (i : Nat) (n : Option String),
        (h.blocks.find? (fun p => p.1 == i)).isSome = true →
          ((h.setBlockName i n).lookupBlock i).name = n) := by
  refine ⟨?_, ?_, ?_, lookupBlock_setName_self⟩
  · intro h ids i n hids hi
    obtain ⟨hn, hfresh, hold, hobs⟩ := deepClone_spec ids h hids
    have : observeResult ((deepCloneParseResult h ids).2.setBlockName i n)
        (deepCloneParseResult h ids).1
        = observeResult (deepCloneParseResult h ids).2 (deepCloneParseResult h ids).1 := by
      unfold observeResult
      apply List.map_congr_left
      intro j hj
      have hjge := hfresh j hj
      exact lookupBlock_setName_ne _ i n j (by omega)
    rw [this, hobs]
  · intro h st ids now maxAgeMs maxEntries hmax
    unfold TerraformParseCache.set
    simp only [mapSet]
    have hexp : cacheEntryExpired now maxAgeMs
        { key := st, result := (deepCloneParseResult h ids).1,
          cachedAt := now, hitCount := 0 } = false := by
      simp [cacheEntryExpired]
    unfold evictIfNeeded evictExpired
    simp only [List.filter, hexp, Bool.not_false, List.filter_nil]
    rw [if_neg (by simp; omega)]
    unfold TerraformParseCache.get
    simp only [List.lookup, if_pos rfl, hexp, Bool.false_eq_true, if_false,
      isKeyValid_self, Bool.not_true, beq_self_eq_true, if_true]
  · intro cache st now maxAgeMs r c' hget
    unfold TerraformParseCache.get at hget ⊢
    cases hlk : List.lookup (keyToString st) cache with
    | none =>
        simp only [hlk] at hget
        simp at hget
    | some entry =>
        simp only [hlk] at hget
        by_cases hexp : cacheEntryExpired now maxAgeMs entry = true
        · simp only [hexp, if_true] at hget
          simp at hget
        · simp only [hexp, if_false] at hget
          by_cases hval : isKeyValid st entry.key = true
          · simp only [hval, Bool.not_true, Bool.false_eq_true, if_false] at hget
            simp only [Prod.mk.injEq, Option.some.injEq] at hget
            obtain ⟨hr, hc⟩ := hget
            have hlk2 : List.lookup (keyToString st) c'
                = some { entry with hitCount := entry.hitCount + 1 } := by
              rw [← hc]
              exact lookup_replaceEntry _ _ cache entry hlk
            simp only [hlk2]
            have hexp2 : cacheEntryExpired now maxAgeMs
                { entry with hitCount := entry.hitCount + 1 }
                = cacheEntryExpired now maxAgeMs entry := rfl
            have hval2 : isKeyValid st
                ({ entry with hitCount := entry.hitCount + 1 } : CacheEntry).key
                = isKeyValid st entry.key := rfl
            simp only [hexp2, hexp, if_false, hval2, hval, Bool.not_true,
              Bool.false_eq_true]
            simpa using hr
          · simp only [hval, Bool.not_false, if_true] at hget
            simp at hget

/-- Witness for C8's amended theorem: at the concrete heap, mutating the
original block after `set` leaves the clone's observation unchanged, and
a `get` that hit returns the same stored ids on the next `get`. -/
theorem tfnav_C8_write_copied_read_aliased_witness :
    ((∀ id ∈ [1], id < heapW8.nextId) ∧ 1 < heapW8.nextId ∧
      observeResult ((deepCloneParseResult heapW8 [1]).2.setBlockName 1 (some "z"))
          (deepCloneParseResult heapW8 [1]).1
        = observeResult heapW8 [1]) ∧
    (TerraformParseCache.get setResW8.2 (some statW8) 0 300000
        = (some [2], getResW8.2) ∧
      (TerraformParseCache.get getResW8.2 (some statW8) 0 300000).1 = some [2]) :=
  ⟨⟨by decide, by decide,
    tfnav_C8_write_copied_read_aliased.1 heapW8 [1] 1 (some "z")
      (by decide) (by decide)⟩,
   ⟨by decide,
    tfnav_C8_write_copied_read_aliased.2.2.1 setResW8.2 statW8 0 300000 [2]
      getResW8.2 (by decide)⟩⟩

/-! ## Claim C9: `findModuleFiles` (`src/indexer/moduleResolver.ts` 199-228)

The walk collects files with `['.tf', '.tf.json'].includes(path.extname(name))`.
Node's `path.extname` returns the suffix from the *last* dot (empty when
there is no dot or only a leading dot), so it yields `.json` — never
`.tf.json` — for `x.tf.json`. -/

/-- Node `path.extname` on a bare file name: the suffix from the last
`.`, or `""` when there is no dot or the only dot is the leading one. -/
def extname (name : String) : String :=
  let cs := name.data
  let afterDot := cs.reverse.takeWhile (fun c => c ≠ '.')
  if afterDot.length = cs.length then ""
  else if cs.length - afterDot.length - 1 = 0 then ""
  else String.mk ('.' :: afterDot.reverse)

/-- A directory tree node; `readable = false` on a directory models
`readdirSync` throwing there (caught and skipped by the walk). -/
inductive FSNode where
  | file (name : String)
  | dir (name : String) (readable : Bool) (entries : List FSNode)

mutual

/-- One entry of the `scanDirectory` loop: files are collected when their
`extname` is in `['.tf', '.tf.json']`; directories recurse unless named
`.terraform`/`.git`/`node_modules`; an unreadable directory contributes
nothing (the `catch` logs and continues). -/
def scanNode (p : String) : FSNode → List String
  | .file name =>
      if [".tf", ".tf.json"].contains (extname name) then [p ++ "/" ++ name]
      else []
  | .dir name readable entries =>
      if [".terraform", ".git", "node_modules"].contains name then []
      else if readable then scanNodes (p ++ "/" ++ name) entries
      else []

/-- The `for (const entry of entries)` loop of `scanDirectory`. -/
def scanNodes (p : String) : List FSNode → List String
  | [] => []
  | e :: es => scanNode p e ++ scanNodes p es

end

/-- The source `findModuleFiles(modulePath)`: scan the root directory's entries
(`readable = false` models the root `readdirSync` throwing). -/
def findModuleFiles (modulePath : String) (readable : Bool)
    (entries : List FSNode) : List String :=
  if readable then scanNodes modulePath entries else []

/-- Claim C9 (code bug): On a directory holding `main.tf.json` and `a.tf`,
`findModuleFiles` returns only the `.tf` file: `path.extname` of
`main.tf.json` is `.json`, which is not in the filter list, so the
`'.tf.json'` entry of that list is unreachable and `.tf.json` files are
never collected — contradicting the claim (and the code's own intent of
including both Terraform extensions, as `canParse` and the watcher glob
do elsewhere).  The directory-name exclusions and the
tolerated-unreadable-subdirectory behavior hold as claimed. -/
theorem tfnav_C9_tf_json_files_skipped :
    extname "main.tf.json" = ".json" ∧
    findModuleFiles "/m" true [.file "main.tf.json", .file "a.tf"] = ["/m/a.tf"] ∧
    findModuleFiles "/m" true
        [.dir ".terraform" true [.file "x.tf"],
         .dir ".git" true [.file "g.tf"],
         .dir "node_modules" true [.file "n.tf"],
         .dir "sub" false [.file "y.tf"],
         .dir "ok" true [.file "z.tf"]]
      = ["/m/ok/z.tf"] := by
  refine ⟨by decide, by decide, by decide⟩

/-! ## Claim C10: provider extraction (`src/types.ts`, `src/indexer/parser.ts`)

`extractProvider` is `kind.match(/^([^_]+)_/)`: the anchored greedy group
matches exactly when the kind starts with one or more non-underscore
characters followed by an underscore, capturing everything up to the
first underscore.  `extractBlocksFromHCL` (`src/indexer/parser.ts`
172-332) attaches `provider: extractProvider(type)` to resource and data
blocks only.  `estimateRange` (lines 485-576) is passed as a function
parameter: its output feeds only the `range` field and does not affect
block identity. -/

/-- The source `extractProvider` (`src/types.ts` 194-197), compiled from the regex
`^([^_]+)_`: defined exactly when the kind starts with a non-empty run of
non-underscore characters followed by `_`, capturing that run. -/
def extractProvider (kind : String) : Option String :=
  if (kind.data.takeWhile (fun c => c ≠ '_')).length ≠ 0 ∧
      (kind.data.takeWhile (fun c => c ≠ '_')).length ≠ kind.data.length then
    some (String.mk (kind.data.takeWhile (fun c => c ≠ '_')))
  else none

/-- The slice of a block's config object the parser reads: only the
module `source` attribute (when it is a string). -/
structure ConfigObj where
  source : Option String := none
deriving DecidableEq, Repr

/-- The source `ParserConfig` (`src/types.ts`), the fields `extractBlocksFromHCL`
reads. -/
structure ParserConfig where
  includeLocals : Option Bool := none
  includeVariables : Option Bool := none
  includeOutputs : Option Bool := none
  includeDataSources : Option Bool := none
  modulePath : Option (List String) := none
deriving DecidableEq, Repr

/-- The decoded HCL tree shape consumed by `extractBlocksFromHCL`:
per top-level keyword, type → name → config-object array (the
`module` and `variable` keys clash with Lean syntax; the fields are
named `modules` and `vars`). -/
structure HCLParsed where
  resource : Option (List (String × List (String × List ConfigObj))) := none
  data : Option (List (String × List (String × List ConfigObj))) := none
  modules : Option (List (String × List ConfigObj)) := none
  vars : Option (List (String × List ConfigObj)) := none
  output : Option (List (String × List ConfigObj)) := none
  locals : Option (List ConfigObj) := none
deriving DecidableEq, Repr

/-! `extractBlocksFromHCL` (`src/indexer/parser.ts` 172-332) is one
function in the source; its six per-keyword loops are factored below so
each can be reasoned about separately.  `estimateRange` (lines 485-576)
is passed as a function parameter: its output feeds only the `range`
field and does not affect block identity. -/

/-- The `parsed.resource` loop (`src/indexer/parser.ts` 182-213). -/
def resourceBlocksOf
    (estimateRange : String → String → Option String → Option String → ByteRange)
    (parsed : HCLParsed) (filePath content : String) (modulePath : List String) :
    List Address :=
  match parsed.resource with
  | none => []
  | some sections =>
      sections.flatMap (fun s =>
        s.2.filterMap (fun e =>
          if e.2.isEmpty then none
          else some
            { blockType := .resource, kind := some s.1, name := some e.1,
              provider := extractProvider s.1, modulePath := modulePath,
              file := filePath,
              range := estimateRange content "resource" (some e.1) (some s.1) }))

/-- The `parsed.data` loop (`src/indexer/parser.ts` 216-243), guarded by
`includeDataSources !== false`. -/
def dataBlocksOf
    (estimateRange : String → String → Option String → Option String → ByteRange)
    (parsed : HCLParsed) (filePath content : String) (modulePath : List String)
    (config : ParserConfig) : List Address :=
  match parsed.data with
  | none => []
  | some sections =>
      if config.includeDataSources == some false then []
      else
        sections.flatMap (fun s =>
          s.2.filterMap (fun e =>
            if e.2.isEmpty then none
            else some
              { blockType := .data, kind := some s.1, name := some e.1,
                provider := extractProvider s.1, modulePath := modulePath,
                file := filePath,
                range := estimateRange content "data" (some e.1) (some s.1) }))

/-- The `parsed.module` loop (`src/indexer/parser.ts` 246-273). -/
def moduleBlocksOf
    (estimateRange : String → String → Option String → Option String → ByteRange)
    (parsed : HCLParsed) (filePath content : String) (modulePath : List String) :
    List Address :=
  match parsed.modules with
  | none => []
  | some sections =>
      sections.filterMap (fun e =>
        if e.2.isEmpty then none
        else some
          { blockType := .module, name := some e.1,
            source := (e.2.head?).bind (fun c => c.source),
            modulePath := modulePath, file := filePath,
            range := estimateRange content "module" (some e.1) none })

/-- The `parsed.variable` loop (`src/indexer/parser.ts` 276-295). -/
def variableBlocksOf
    (estimateRange : String → String → Option String → Option String → ByteRange)
    (parsed : HCLParsed) (filePath content : String) (modulePath : List String)
    (config : ParserConfig) : List Address :=
  match parsed.vars with
  | none => []
  | some sections =>
      if config.includeVariables == some false then []
      else
        sections.filterMap (fun e =>
          if e.2.isEmpty then none
          else some
            { blockType := .variable', name := some e.1,
              modulePath := modulePath, file := filePath,
              range := estimateRange content "variable" (some e.1) none })

/-- The `parsed.output` loop (`src/indexer/parser.ts` 298-314). -/
def outputBlocksOf
    (estimateRange : String → String → Option String → Option String → ByteRange)
    (parsed : HCLParsed) (filePath content : String) (modulePath : List String)
    (config : ParserConfig) : List Address :=
  match parsed.output with
  | none => []
  | some sections =>
      if config.includeOutputs == some false then []
      else
        sections.filterMap (fun e =>
          if e.2.isEmpty then none
          else some
            { blockType := .output, name := some e.1,
              modulePath := modulePath, file := filePath,
              range := estimateRange content "output" (some e.1) none })

/-- The `parsed.locals` branch (`src/indexer/parser.ts` 317-329). -/
def localsBlocksOf
    (estimateRange : String → String → Option String → Option String → ByteRange)
    (parsed : HCLParsed) (filePath content : String) (modulePath : List String)
    (config : ParserConfig) : List Address :=
  match parsed.locals with
  | none => []
  | some arr =>
      if config.includeLocals == some false then []
      else if arr.isEmpty then []
      else
        [{ blockType := .locals, modulePath := modulePath, file := filePath,
           range := estimateRange content "locals" none none }]

/-- The source `extractBlocksFromHCL` (`src/indexer/parser.ts` 172-332): the six
loops in source order. -/
def extractBlocksFromHCL
    (estimateRange : String → String → Option String → Option String → ByteRange)
    (parsed : HCLParsed) (filePath content : String) (config : ParserConfig) :
    List Address :=
  resourceBlocksOf estimateRange parsed filePath content (config.modulePath.getD [])
    ++ dataBlocksOf estimateRange parsed filePath content
        (config.modulePath.getD []) config
    ++ moduleBlocksOf estimateRange parsed filePath content (config.modulePath.getD [])
    ++ variableBlocksOf estimateRange parsed filePath content
        (config.modulePath.getD []) config
    ++ outputBlocksOf estimateRange parsed filePath content
        (config.modulePath.getD []) config
    ++ localsBlocksOf estimateRange parsed filePath content
        (config.modulePath.getD []) config

theorem takeWhile_all_ne (l : List Char) (h : ∀ c ∈ l, c ≠ '_') :
    l.takeWhile (fun c => c ≠ '_') = l := by
  induction l with
  | nil => rfl
  | cons c cs ih =>
      rw [List.takeWhile_cons_of_pos
        (by simp only [decide_eq_true_eq]; exact h c (List.mem_cons_self ..))]
      rw [ih (fun x hx => h x (List.mem_cons_of_mem _ hx))]

theorem underscore_mem_of_takeWhile_lt (l : List Char)
    (h : (l.takeWhile (fun c => c ≠ '_')).length ≠ l.length) : '_' ∈ l := by
  by_contra hnot
  exact h (by rw [takeWhile_all_ne l (fun c hc => fun he => hnot (he ▸ hc))])

theorem mem_resourceBlocksOf {er parsed fp content mp b}
    (hb : b ∈ resourceBlocksOf er parsed fp content mp) :
    b.blockType = .resource ∧ ∃ k, b.kind = some k ∧ b.provider = extractProvider k := by
  unfold resourceBlocksOf at hb
  cases hres : parsed.resource with
  | none => simp [hres] at hb
  | some sections =>
      simp only [hres] at hb
      obtain ⟨s, -, hmem⟩ := List.mem_flatMap.mp hb
      obtain ⟨e, -, hsome⟩ := List.mem_filterMap.mp hmem
      by_cases hemp : e.2.isEmpty = true
      · rw [if_pos hemp] at hsome; exact absurd hsome (by simp)
      · rw [if_neg hemp] at hsome
        simp only [Option.some.injEq] at hsome
        subst hsome
        exact ⟨rfl, s.1, rfl, rfl⟩

theorem mem_dataBlocksOf {er parsed fp content mp cfg b}
    (hb : b ∈ dataBlocksOf er parsed fp content mp cfg) :
    b.blockType = .data ∧ ∃ k, b.kind = some k ∧ b.provider = extractProvider k := by
  unfold dataBlocksOf at hb
  cases hres : parsed.data with
  | none => simp [hres] at hb
  | some sections =>
      simp only [hres] at hb
      by_cases hinc : (cfg.includeDataSources == some false) = true
      · rw [if_pos hinc] at hb; simp at hb
      · rw [if_neg hinc] at hb
        obtain ⟨s, -, hmem⟩ := List.mem_flatMap.mp hb
        obtain ⟨e, -, hsome⟩ := List.mem_filterMap.mp hmem
        by_cases hemp : e.2.isEmpty = true
        · rw [if_pos hemp] at hsome; exact absurd hsome (by simp)
        · rw [if_neg hemp] at hsome
          simp only [Option.some.injEq] at hsome
          subst hsome
          exact ⟨rfl, s.1, rfl, rfl⟩

theorem mem_moduleBlocksOf {er parsed fp content mp b}
    (hb : b ∈ moduleBlocksOf er parsed fp content mp) :
    b.blockType = .module := by
  unfold moduleBlocksOf at hb
  cases hres : parsed.modules with
  | none => simp [hres] at hb
  | some sections =>
      simp only [hres] at hb
      obtain ⟨e, -, hsome⟩ := List.mem_filterMap.mp hb
      by_cases hemp : e.2.isEmpty = true
      · rw [if_pos hemp] at hsome; exact absurd hsome (by simp)
      · rw [if_neg hemp] at hsome
        simp only [Option.some.injEq] at hsome
        subst hsome
        rfl

theorem mem_variableBlocksOf {er parsed fp content mp cfg b}
    (hb : b ∈ variableBlocksOf er parsed fp content mp cfg) :
    b.blockType = .variable' := by
  unfold variableBlocksOf at hb
  cases hres : parsed.vars with
  | none => simp [hres] at hb
  | some sections =>
      simp only [hres] at hb
      by_cases hinc : (cfg.includeVariables == some false) = true
      · rw [if_pos hinc] at hb; simp at hb
      · rw [if_neg hinc] at hb
        obtain ⟨e, -, hsome⟩ := List.mem_filterMap.mp hb
        by_cases hemp : e.2.isEmpty = true
        · rw [if_pos hemp] at hsome; exact absurd hsome (by simp)
        · rw [if_neg hemp] at hsome
          simp only [Option.some.injEq] at hsome
          subst hsome
          rfl

theorem mem_outputBlocksOf {er parsed fp content mp cfg b}
    (hb : b ∈ outputBlocksOf er parsed fp content mp cfg) :
    b.blockType = .output := by
  unfold outputBlocksOf at hb
  cases hres : parsed.output with
  | none => simp [hres] at hb
  | some sections =>
      simp only [hres] at hb
      by_cases hinc : (cfg.includeOutputs == some false) = true
      · rw [if_pos hinc] at hb; simp at hb
      · rw [if_neg hinc] at hb
        obtain ⟨e, -, hsome⟩ := List.mem_filterMap.mp hb
        by_cases hemp : e.2.isEmpty = true
        · rw [if_pos hemp] at hsome; exact absurd hsome (by simp)
        · rw [if_neg hemp] at hsome
          simp only [Option.some.injEq] at hsome
          subst hsome
          rfl

theorem mem_localsBlocksOf {er parsed fp content mp cfg b}
    (hb : b ∈ localsBlocksOf er parsed fp content mp cfg) :
    b.blockType = .locals := by
  unfold localsBlocksOf at hb
  cases hres : parsed.locals with
  | none => simp [hres] at hb
  | some arr =>
      simp only [hres] at hb
      by_cases hinc : (cfg.includeLocals == some false) = true
      · rw [if_pos hinc] at hb; simp at hb
      · rw [if_neg hinc] at hb
        by_cases hemp : arr.isEmpty = true
        · rw [if_pos hemp] at hb; simp at hb
        · rw [if_neg hemp] at hb
          simp only [List.mem_singleton] at hb
          subst hb
          rfl

/-- Claim C10: A kind with no underscore yields no provider hint; a present
provider hint is always the substring of the kind strictly before its
first underscore (and is non-empty, with an underscore present in the
kind); and every resource or data block emitted by `extractBlocksFromHCL`
carries `provider = extractProvider kind` for its own kind. -/
theorem tfnav_C10_provider_prefix :
    (∀ kind : String, (∀ c ∈ kind.data, c ≠ '_') → extractProvider kind = none) ∧
    (∀ (kind p : String), extractProvider kind = some p →
        p = String.mk (kind.data.takeWhile (fun c => c ≠ '_')) ∧
          '_' ∈ kind.data ∧ p ≠ "") ∧
    (∀ (er : String → String → Option String → Option String → ByteRange)
        (parsed : HCLParsed) (fp content : String) (cfg : ParserConfig)
        (b : Address), b ∈ extractBlocksFromHCL er parsed fp content cfg →
        (b.blockType = .resource ∨ b.blockType = .data) →
        ∃ k, b.kind = some k ∧ b.provider = extractProvider k) := by
  refine ⟨?_, ?_, ?_⟩
  · intro kind h
    unfold extractProvider
    rw [takeWhile_all_ne kind.data h]
    rw [if_neg (fun hc => hc.2 rfl)]
  · intro kind p h
    unfold extractProvider at h
    by_cases hc : (kind.data.takeWhile (fun c => c ≠ '_')).length ≠ 0 ∧
        (kind.data.takeWhile (fun c => c ≠ '_')).length ≠ kind.data.length
    · rw [if_pos hc] at h
      obtain ⟨h1, h2⟩ := hc
      simp only [Option.some.injEq] at h
      refine ⟨h.symm, underscore_mem_of_takeWhile_lt _ h2, ?_⟩
      rw [← h]
      intro hemp
      have hdata : (kind.data.takeWhile (fun c => c ≠ '_')) = [] := by
        have := congrArg String.data hemp
        simpa using this
      rw [hdata] at h1
      exact h1 rfl
    · rw [if_neg hc] at h
      exact absurd h (by simp)
  · intro er parsed fp content cfg b hb htype
    unfold extractBlocksFromHCL at hb
    simp only [List.append_assoc, List.mem_append] at hb
    rcases hb with hb | hb | hb | hb | hb | hb
    · exact (mem_resourceBlocksOf hb).2
    · exact (mem_dataBlocksOf hb).2
    · rcases htype with ht | ht <;>
        · rw [mem_moduleBlocksOf hb] at ht; exact absurd ht (by simp)
    · rcases htype with ht | ht <;>
        · rw [mem_variableBlocksOf hb] at ht; exact absurd ht (by simp)
    · rcases htype with ht | ht <;>
        · rw [mem_outputBlocksOf hb] at ht; exact absurd ht (by simp)
    · rcases htype with ht | ht <;>
        · rw [mem_localsBlocksOf hb] at ht; exact absurd ht (by simp)

/-- Concrete inputs for the C10 witness: one resource of kind `aws` (no
underscore) and one of kind `aws_instance`. -/
def parsedW10 : HCLParsed :=
  { resource := some [("aws", [("plain", [{}])]),
                      ("aws_instance", [("web", [{}])])] }

def erW10 : String → String → Option String → Option String → ByteRange :=
  fun _ _ _ _ => ⟨0, 0⟩

/-- Witness for C10 at concrete inputs: `aws` has no underscore and gets
no provider; `aws_instance` yields provider `aws`; and a concrete emitted
resource block carries its kind's `extractProvider` value. -/
theorem tfnav_C10_provider_prefix_witness :
    ((∀ c ∈ ("aws" : String).data, c ≠ '_') ∧ extractProvider "aws" = none) ∧
    (extractProvider "aws_instance" = some "aws" ∧
      "aws" = String.mk (("aws_instance" : String).data.takeWhile (fun c => c ≠ '_')) ∧
      '_' ∈ ("aws_instance" : String).data ∧ ("aws" : String) ≠ "") ∧
    (({ blockType := .resource, kind := some "aws", name := some "plain",
        provider := extractProvider "aws", modulePath := [], file := "f.tf",
        range := ⟨0, 0⟩ } : Address)
        ∈ extractBlocksFromHCL erW10 parsedW10 "f.tf" "" {} ∧
      ∃ k, ({ blockType := .resource, kind := some "aws", name := some "plain",
              provider := extractProvider "aws", modulePath := [], file := "f.tf",
              range := ⟨0, 0⟩ } : Address).kind = some k ∧
        ({ blockType := .resource, kind := some "aws", name := some "plain",
           provider := extractProvider "aws", modulePath := [], file := "f.tf",
           range := ⟨0, 0⟩ } : Address).provider = extractProvider k) :=
  ⟨⟨by decide, tfnav_C10_provider_prefix.1 "aws" (by decide)⟩,
   ⟨by decide, tfnav_C10_provider_prefix.2.1 "aws_instance" "aws" (by decide)⟩,
   ⟨by decide,
    tfnav_C10_provider_prefix.2.2 erW10 parsedW10 "f.tf" "" {} _ (by decide)
      (Or.inl rfl)⟩⟩

end TfNav
